import Mathlib

/-!
Verification of the pepc multi-mechanism property-access framework.

The definitions below are a shallow embedding of the Python sources:
`pepclibs/_PropsClassBase.py`, `pepclibs/EPP.py`, `pepclibs/EPB.py` and
`pepclibs/helperlibs/ClassHelpers.py`.  Helper modules that are not part of
the sources (CPUInfo topology queries, `Trivial.list_dedup`, the
`_PropsCache` result cache) are modelled from the specification and marked
as such in their doc comments.  Scope names and mechanism names are kept as
strings, exactly as in the Python code.
-/

namespace Pepc

/-- Modelled from the spec: `Trivial.list_dedup` (helper not in the sources)
removes duplicate elements of a list, keeping the first occurrence of each
element and preserving the order of first occurrences. -/
def listDedup {α : Type} [DecidableEq α] : List α → List α
  | [] => []
  | x :: xs => x :: (listDedup xs).filter (fun y => y ≠ x)

/-- Equality of `Except` values is decidable when both component types have
decidable equality; needed to evaluate the embedded functions on concrete
inputs. -/
instance exceptDecEq {ε α : Type} [DecidableEq ε] [DecidableEq α] :
    DecidableEq (Except ε α) := fun x y =>
  match x, y with
  | .ok a, .ok b => if h : a = b then isTrue (by rw [h]) else isFalse (by simp [h])
  | .error a, .error b => if h : a = b then isTrue (by rw [h]) else isFalse (by simp [h])
  | .ok _, .error _ => isFalse (by simp)
  | .error _, .ok _ => isFalse (by simp)

/-- Modelled from the spec: the Topology Model component.  An
immutable-after-construction mapping from CPU number to (core, die, package);
`cpus` is the list of online CPU numbers.  Die and core numbers are relative
to the package, as in `CPUInfo` (not in the sources). -/
structure Topology where
  cpus : List Nat
  pkg : Nat → Nat
  die : Nat → Nat
  core : Nat → Nat

/-- Modelled from the spec: `CPUInfo.get_cpus()` returns all online CPUs. -/
def get_cpus (t : Topology) : List Nat :=
  t.cpus

/-- Modelled from the spec: `CPUInfo.get_packages()` enumeration query. -/
def get_packages (t : Topology) : List Nat :=
  listDedup (t.cpus.map t.pkg)

/-- Modelled from the spec: `CPUInfo.package_to_cpus()` pure lookup of the
online CPUs belonging to one package. -/
def package_to_cpus (t : Topology) (p : Nat) : List Nat :=
  t.cpus.filter (fun c => t.pkg c = p)

/-- Modelled from the spec: `CPUInfo.dies_to_cpus()` pure lookup of the
online CPUs belonging to one die of one package. -/
def dies_to_cpus (t : Topology) (p d : Nat) : List Nat :=
  t.cpus.filter (fun c => t.pkg c = p ∧ t.die c = d)

/-- Modelled from the spec: `CPUInfo.get_dies()` enumeration query listing
the die numbers of one package. -/
def get_dies (t : Topology) (p : Nat) : List Nat :=
  listDedup ((t.cpus.filter (fun c => t.pkg c = p)).map t.die)

/-- Whether two CPUs share the same unit at scope `sname` ("package", "die"
or "core"); used to express the `CPUInfo.cpus_div_*` partition queries. -/
def same_unit (t : Topology) (sname : String) (c1 c2 : Nat) : Bool :=
  if sname = "package" then t.pkg c1 = t.pkg c2
  else if sname = "die" then t.pkg c1 = t.pkg c2 ∧ t.die c1 = t.die c2
  else if sname = "core" then t.pkg c1 = t.pkg c2 ∧ t.core c1 = t.core c2
  else false

/-- Whether the unit (at scope `sname`) containing CPU `c` is wholly covered
by the CPU collection `cpus`: every online CPU of that unit is in `cpus`. -/
def unit_covered (t : Topology) (sname : String) (cpus : List Nat) (c : Nat) : Bool :=
  (t.cpus.filter (fun c2 => same_unit t sname c c2)).all (fun c2 => cpus.contains c2)

/-- Modelled from the spec: `CPUInfo.cpus_div_packages/dies/cores()`
(`partition(cpus, level)`): splits a CPU collection into complete units at
the given scope plus the leftover CPUs that do not fill any whole unit.
The first component lists the (package, unit) keys of the complete units,
the second the leftover CPUs. -/
def cpus_div (t : Topology) (sname : String) (cpus : List Nat) :
    List (Nat × Nat) × List Nat :=
  let covered := cpus.filter (fun c => unit_covered t sname cpus c)
  let key : Nat → Nat × Nat := fun c =>
    if sname = "die" then (t.pkg c, t.die c)
    else if sname = "core" then (t.pkg c, t.core c)
    else (t.pkg c, 0)
  (listDedup (covered.map key), cpus.filter (fun c => !(unit_covered t sname cpus c)))

/-- Structured counterpart of the `Error` messages raised by
`_PropsClassBase._validate_cpus_vs_scope()`: each constructor carries the
data the corresponding message is built from. -/
inductive ScopeErr
  | badScope (sname : String)
  | missingCpus (missing : List Nat)
  | remCpus (rem : List Nat)
deriving DecidableEq

/-- Embedding of `_PropsClassBase._validate_cpus_vs_scope()`: make sure the
CPUs in `cpus` match the scope `sname` of a property.  CPU scope always
passes; global scope requires `cpus` to include all online CPUs (the error
names the missing ones); package/die/core scope requires the partition to
leave no remainder (the error lists the leftover CPUs). -/
def validate_cpus_vs_scope (t : Topology) (sname : String) (cpus : List Nat) :
    Except ScopeErr Unit :=
  if sname ∉ ["global", "package", "die", "core", "CPU"] then
    .error (.badScope sname)
  else if sname = "CPU" then
    .ok ()
  else if sname = "global" then
    let missing := t.cpus.filter (fun c => !(cpus.contains c))
    if missing = [] then .ok () else .error (.missingCpus missing)
  else
    let rem := (cpus_div t sname cpus).2
    if rem = [] then .ok () else .error (.remCpus rem)

/-- Specification-side predicate (from the spec words, for comparison with
the code): the CPU collection is exactly a union of whole units at scope
`sname` — every unit it touches is wholly contained in it. -/
def spec_union_of_whole_units (t : Topology) (sname : String) (cpus : List Nat) : Prop :=
  ∀ c ∈ cpus, ∀ c2 ∈ t.cpus, same_unit t sname c c2 = true → c2 ∈ cpus

theorem rem_nil_iff_union (t : Topology) (sname : String) (cpus : List Nat) :
    ((cpus_div t sname cpus).2 = []) ↔ spec_union_of_whole_units t sname cpus := by
  simp only [cpus_div, List.filter_eq_nil_iff, unit_covered, spec_union_of_whole_units,
    Bool.not_eq_true, Bool.not_eq_false, Bool.not_eq_false', List.all_eq_true, List.mem_filter,
    List.elem_iff, and_imp]

theorem validate_scope_global_case (t : Topology) (cpus : List Nat) :
    validate_cpus_vs_scope t "global" cpus =
      (if t.cpus.filter (fun c => !(cpus.contains c)) = [] then .ok ()
       else .error (.missingCpus (t.cpus.filter (fun c => !(cpus.contains c))))) := rfl

theorem validate_scope_unit_case (t : Topology) (cpus : List Nat) (sname : String)
    (h : sname = "package" ∨ sname = "die" ∨ sname = "core") :
    validate_cpus_vs_scope t sname cpus =
      (if (cpus_div t sname cpus).2 = [] then .ok ()
       else .error (.remCpus (cpus_div t sname cpus).2)) := by
  rcases h with h | h | h <;> subst h <;> rfl

theorem global_filter_nil_iff (t : Topology) (cpus : List Nat) :
    (t.cpus.filter (fun c => !(cpus.contains c)) = []) ↔ ∀ c ∈ t.cpus, c ∈ cpus := by
  simp only [List.filter_eq_nil_iff, Bool.not_eq_true, Bool.not_eq_false', List.elem_iff,
    Decidable.not_not]

/-- C1: scope validation of a set operation (`_validate_cpus_vs_scope`).
A CPU-scoped property accepts any CPU set; a global-scoped property accepts
exactly the full online CPU set, otherwise the error names the missing
CPUs; a package/die/core-scoped property accepts the set exactly when it is
a union of whole units at that scope, otherwise the error lists the leftover
CPUs that do not complete a whole unit.  The hypothesis reflects that
`set_prop_cpus()` normalizes `cpus` (every CPU is online) before
validating. -/
theorem C1_set_scope_validation (t : Topology) (cpus : List Nat)
    (hsub : ∀ c ∈ cpus, c ∈ t.cpus) :
    (validate_cpus_vs_scope t "CPU" cpus = .ok ()) ∧
    ((validate_cpus_vs_scope t "global" cpus = .ok ()) ↔ (∀ c, c ∈ cpus ↔ c ∈ t.cpus)) ∧
    ((validate_cpus_vs_scope t "global" cpus ≠ .ok ()) →
      validate_cpus_vs_scope t "global" cpus =
        .error (.missingCpus (t.cpus.filter (fun c => !(cpus.contains c)))) ∧
      t.cpus.filter (fun c => !(cpus.contains c)) ≠ []) ∧
    (∀ sname, (sname = "package" ∨ sname = "die" ∨ sname = "core") →
      ((validate_cpus_vs_scope t sname cpus = .ok ()) ↔
        spec_union_of_whole_units t sname cpus) ∧
      ((validate_cpus_vs_scope t sname cpus ≠ .ok ()) →
        validate_cpus_vs_scope t sname cpus = .error (.remCpus (cpus_div t sname cpus).2) ∧
        (cpus_div t sname cpus).2 ≠ [])) := by
  refine ⟨rfl, ?_, ?_, ?_⟩
  · rw [validate_scope_global_case]
    by_cases h : t.cpus.filter (fun c => !(cpus.contains c)) = []
    · rw [if_pos h]
      have h2 := (global_filter_nil_iff t cpus).mp h
      exact iff_of_true rfl (fun c => ⟨fun hc => hsub c hc, fun hc => h2 c hc⟩)
    · rw [if_neg h]
      refine iff_of_false (fun hcontra => Except.noConfusion hcontra) (fun hall => ?_)
      exact h ((global_filter_nil_iff t cpus).mpr (fun c hc => (hall c).mpr hc))
  · intro hne
    rw [validate_scope_global_case] at hne ⊢
    by_cases h : t.cpus.filter (fun c => !(cpus.contains c)) = []
    · exact absurd (by rw [if_pos h]) hne
    · exact ⟨by rw [if_neg h], h⟩
  · intro sname hs
    have hcase := validate_scope_unit_case t cpus sname hs
    constructor
    · rw [hcase]
      by_cases h : (cpus_div t sname cpus).2 = []
      · rw [if_pos h]
        exact iff_of_true rfl ((rem_nil_iff_union t sname cpus).mp h)
      · rw [if_neg h]
        refine iff_of_false (fun hcontra => Except.noConfusion hcontra) (fun hu => ?_)
        exact h ((rem_nil_iff_union t sname cpus).mpr hu)
    · intro hne
      rw [hcase] at hne ⊢
      by_cases h : (cpus_div t sname cpus).2 = []
      · exact absurd (by rw [if_pos h]) hne
      · exact ⟨by rw [if_neg h], h⟩

/-- Sample topology: four CPUs, two packages of one die each, two cores per
package (CPU c is in package c / 2, die 0, core c % 2). -/
def topo4 : Topology where
  cpus := [0, 1, 2, 3]
  pkg := fun c => c / 2
  die := fun _ => 0
  core := fun c => c % 2

/-- Witness for C1: concrete run on `topo4` with the CPUs of package 0. -/
theorem C1_set_scope_validation_witness :
    (∀ c ∈ ([0, 1] : List Nat), c ∈ topo4.cpus) ∧
    validate_cpus_vs_scope topo4 "CPU" [0, 1] = .ok () :=
  ⟨by decide, (C1_set_scope_validation topo4 [0, 1] (by decide)).1⟩

/-- Embedding of `_PropsClassBase.MECHANISMS`: mechanism name and its global
writable flag ("sysfs" and "msr" are writable, "cppc" and "doc" are
read-only). -/
def MECHANISMS : List (String × Bool) :=
  [("sysfs", true), ("msr", true), ("cppc", false), ("doc", false)]

/-- Association-list lookup, the embedding of a Python dictionary access
returning `None` for a missing key. -/
def alist_get {κ α : Type} [DecidableEq κ] (l : List (κ × α)) (k : κ) : Option α :=
  (l.find? (fun e => e.1 = k)).map (fun e => e.2)

/-- The `writable` flag of a mechanism in `MECHANISMS`. -/
def mech_writable (mname : String) : Bool :=
  (alist_get MECHANISMS mname).getD false

/-- A property value: boolean, integer or string (the dynamically typed
values the Python code passes around). -/
inductive PVal
  | b (x : Bool)
  | i (n : Int)
  | s (v : String)
deriving DecidableEq

/-- Per-property metadata of the props dictionaries (such as `Power.PROPS`):
display name, scope name, I/O scope name, ordered mechanism list, writable
flag, value type and optional unit. -/
structure PropInfo where
  name : String
  sname : String
  iosname : String
  mnames : List String
  writable : Bool
  type : String
  unit : Option String
deriving DecidableEq

/-- A property-class instance: the `_props` registry dictionary.  The
`mechanisms` dictionary is derived from it as in `_init_props_dict()`. -/
structure PropsClass where
  props : List (String × PropInfo)
deriving DecidableEq

/-- Embedding of the `mechanisms` dictionary built by `_init_props_dict()`:
the mechanisms of `MECHANISMS` that at least one property supports. -/
def class_mechanisms (pc : PropsClass) : List String :=
  (MECHANISMS.map (fun e => e.1)).filter
    (fun m => pc.props.any (fun p => p.2.mnames.contains m))

/-- Structured counterpart of the exceptions raised by the property
framework; each constructor carries the data its message is built from. -/
inductive PepcErr
  | keyError (key : String)
  | unknownProperty (pname : String)
  | unsupportedMech (mname : String)
  | readOnlyMech (mname : String)
  | notWritable (pname : String)
  | invalidValue (what : String)
  | outOfRange (what : String)
  | invalidTarget (cpus : List Nat)
  | scope (e : ScopeErr)
  | crossScope (accessSname propSname : String)
  | bug (what : String)
deriving DecidableEq

/-- The property value dictionary (`pvinfo`) of `get_prop_cpus()`:
CPU number, property name, value or absent, mechanism used or none. -/
structure PvInfo where
  cpu : Nat
  pname : String
  val : Option PVal
  mname : Option String
deriving DecidableEq

/-- Embedding of `_PropsClassBase._construct_pvinfo()`: boolean values are
rendered as the strings "on" and "off". -/
def construct_pvinfo (pname : String) (cpu : Nat) (mname : Option String)
    (val : Option PVal) : PvInfo :=
  let val := match val with
    | some (.b true) => some (.s "on")
    | some (.b false) => some (.s "off")
    | v => v
  { cpu := cpu, pname := pname, val := val, mname := mname }

/-- The mechanism loop of `_get_cpu_prop_pvinfo()`: try the mechanisms in
order and stop at the first one that returns a present value.  The first
component of the result is the Python loop variable `mname` after the loop:
the winning mechanism on success, the last tried mechanism (or the initial
`None` for an empty list) when every mechanism reported absence. -/
def mnames_loop (read : String → Option PVal) :
    Option String → List String → Option String × Option PVal
  | mprev, [] => (mprev, none)
  | _, m :: rest =>
    match read m with
    | some v => (some m, some v)
    | none => mnames_loop read (some m) rest

/-- Embedding of `_PropsClassBase._get_cpu_prop_pvinfo()`: build the
property value dictionary for one CPU using the mechanisms in `mnames` (the
property's declared list when `mnames` is `None` or empty).  When every
mechanism reports absence, `_prop_not_supported()` is called with no
exceptions, which only logs a debug message and raises nothing. -/
def get_cpu_prop_pvinfo (prop : PropInfo) (read : String → Nat → String → Option PVal)
    (pname : String) (cpu : Nat) (mnames : Option (List String)) : PvInfo :=
  let ms := match mnames with
    | none => prop.mnames
    | some [] => prop.mnames
    | some l => l
  let r := mnames_loop (fun m => read pname cpu m) none ms
  construct_pvinfo pname cpu r.1 r.2

/-- A sample property for concrete runs: an integer CPU-scoped property
with mechanisms "sysfs" then "msr". -/
def prop_sample : PropInfo where
  name := "Sample property"
  sname := "CPU"
  iosname := "CPU"
  mnames := ["sysfs", "msr"]
  writable := true
  type := "int"
  unit := none

/-- C2 (failing input): when every mechanism reports absence, the returned
property value dictionary has an absent value but is tagged with the LAST
tried mechanism, not with no mechanism — contradicting the claim and the
`get_prop_cpus()` docstring, which promises that both the `val` and `mname`
keys contain `None` for an unsupported property. -/
theorem C2_absent_value_keeps_last_mname :
    get_cpu_prop_pvinfo prop_sample (fun _ _ _ => none) "p" 0 (some ["sysfs", "msr"]) =
      { cpu := 0, pname := "p", val := none, mname := some "msr" } := rfl

/-- The disagreement data carried by the `ErrorUsePerCPU` exception raised
by `_validate_prop_vs_ioscope()`: the two conflicting (CPU, value) pairs
and the property value dictionaries collected for every CPU. -/
structure AmbiguousInfo where
  cpu1 : Nat
  val1 : Option PVal
  cpu2 : Nat
  val2 : Option PVal
  pvinfos : List (Nat × PvInfo)
deriving DecidableEq

/-- The loop of `_validate_prop_vs_ioscope()`: walk the CPUs, collect the
property value dictionary of each, remember the first CPU (`prev`), and on
the first value differing from the first CPU's value record the two
disagreeing dictionaries (`dis`); later CPUs are still read and collected
but no longer compared. -/
def ioscope_loop (read : Nat → PvInfo) :
    List Nat → Option Nat → List (Nat × PvInfo) → Option (PvInfo × PvInfo) →
    List (Nat × PvInfo) × Option (PvInfo × PvInfo)
  | [], _, acc, dis => (acc, dis)
  | c :: rest, prev, acc, some d =>
    ioscope_loop read rest prev (acc ++ [(c, read c)]) (some d)
  | c :: rest, none, acc, none =>
    ioscope_loop read rest (some c) (acc ++ [(c, read c)]) none
  | c :: rest, some pc, acc, none =>
    if (read c).val ≠ (read pc).val then
      ioscope_loop read rest (some pc) (acc ++ [(c, read c)]) (some (read pc, read c))
    else
      ioscope_loop read rest (some pc) (acc ++ [(c, read c)]) none

/-- Embedding of `_PropsClassBase._validate_prop_vs_ioscope()`: verify the
property has the same value on all CPUs in `cpus`; on disagreement raise
`ErrorUsePerCPU` carrying the conflicting pairs and all collected property
value dictionaries. -/
def validate_prop_vs_ioscope (prop : PropInfo) (rd : String → Nat → String → Option PVal)
    (pname : String) (mnames : Option (List String)) (cpus : List Nat) :
    Except AmbiguousInfo Unit :=
  let read := fun c => get_cpu_prop_pvinfo prop rd pname c mnames
  let r := ioscope_loop read cpus none [] none
  match r.2 with
  | none => .ok ()
  | some (pv1, pv2) =>
    .error { cpu1 := pv1.cpu, val1 := pv1.val, cpu2 := pv2.cpu, val2 := pv2.val,
             pvinfos := r.1 }

/-- Errors a per-die or per-package read can produce: the ambiguity error of
the I/O-scope reconciler, or the Python `IndexError` on `cpus[0]` for a unit
with no online CPUs. -/
inductive GetErr
  | ambiguous (info : AmbiguousInfo)
  | indexError
deriving DecidableEq

/-- The per-package property value dictionary of `get_prop_packages()`. -/
structure PkgPvInfo where
  package : Nat
  val : Option PVal
  mname : Option String
deriving DecidableEq

/-- The per-die property value dictionary of `get_prop_dies()`. -/
structure DiePvInfo where
  die : Nat
  package : Nat
  val : Option PVal
  mname : Option String
deriving DecidableEq

/-- Embedding of `_PropsClassBase._get_package_prop_pvinfo()`: when scope
and I/O scope differ, first run the I/O-scope reconciler over all CPUs of
the package; then read the property from the first CPU of the package. -/
def get_package_prop_pvinfo (prop : PropInfo) (rd : String → Nat → String → Option PVal)
    (t : Topology) (pname : String) (package : Nat) (mnames : Option (List String)) :
    Except GetErr PkgPvInfo :=
  let cpus := package_to_cpus t package
  let step : Except AmbiguousInfo Unit :=
    if prop.sname ≠ prop.iosname then
      validate_prop_vs_ioscope prop rd pname mnames cpus
    else .ok ()
  match step with
  | .error e => .error (.ambiguous e)
  | .ok () =>
    match cpus with
    | [] => .error .indexError
    | c0 :: _ =>
      let pv := get_cpu_prop_pvinfo prop rd pname c0 mnames
      .ok { package := package, val := pv.val, mname := pv.mname }

/-- Embedding of `_PropsClassBase._get_die_prop_pvinfo()`: the per-die
variant of `get_package_prop_pvinfo`. -/
def get_die_prop_pvinfo (prop : PropInfo) (rd : String → Nat → String → Option PVal)
    (t : Topology) (pname : String) (package d : Nat) (mnames : Option (List String)) :
    Except GetErr DiePvInfo :=
  let cpus := dies_to_cpus t package d
  let step : Except AmbiguousInfo Unit :=
    if prop.sname ≠ prop.iosname then
      validate_prop_vs_ioscope prop rd pname mnames cpus
    else .ok ()
  match step with
  | .error e => .error (.ambiguous e)
  | .ok () =>
    match cpus with
    | [] => .error .indexError
    | c0 :: _ =>
      let pv := get_cpu_prop_pvinfo prop rd pname c0 mnames
      .ok { die := d, package := package, val := pv.val, mname := pv.mname }

theorem ioscope_loop_fst (read : Nat → PvInfo) (cpus : List Nat) :
    ∀ prev acc dis, (ioscope_loop read cpus prev acc dis).1 =
      acc ++ cpus.map (fun c => (c, read c)) := by
  induction cpus with
  | nil => intro prev acc dis; simp [ioscope_loop]
  | cons c rest ih =>
    intro prev acc dis
    cases dis with
    | some d => simp only [ioscope_loop, List.map_cons]; rw [ih]; simp
    | none =>
      cases prev with
      | none => simp only [ioscope_loop, List.map_cons]; rw [ih]; simp
      | some pc =>
        by_cases h : (read c).val ≠ (read pc).val
        · simp only [ioscope_loop, List.map_cons]
          rw [if_pos h, ih]
          simp
        · simp only [ioscope_loop, List.map_cons]
          rw [if_neg h, ih]
          simp

theorem ioscope_loop_keep_dis (read : Nat → PvInfo) (cpus : List Nat) :
    ∀ prev acc d, (ioscope_loop read cpus prev acc (some d)).2 = some d := by
  induction cpus with
  | nil => intros; simp [ioscope_loop]
  | cons c rest ih => intro prev acc d; simp only [ioscope_loop]; exact ih prev _ d

theorem ioscope_loop_agree (read : Nat → PvInfo) (cpus : List Nat) :
    ∀ pc acc, (∀ c ∈ cpus, (read c).val = (read pc).val) →
      (ioscope_loop read cpus (some pc) acc none).2 = none := by
  induction cpus with
  | nil => intros; simp [ioscope_loop]
  | cons c rest ih =>
    intro pc acc h
    simp only [ioscope_loop]
    rw [if_neg (not_not_intro (h c (List.mem_cons_self c rest)))]
    exact ih pc _ (fun x hx => h x (List.mem_cons_of_mem _ hx))

theorem ioscope_loop_disagree (read : Nat → PvInfo) (cpus : List Nat) :
    ∀ pc acc, (∃ c ∈ cpus, (read c).val ≠ (read pc).val) →
      ∃ c ∈ cpus, (read c).val ≠ (read pc).val ∧
        (ioscope_loop read cpus (some pc) acc none).2 = some (read pc, read c) := by
  induction cpus with
  | nil =>
    rintro pc acc ⟨c, hc, _⟩
    exact absurd hc (List.not_mem_nil c)
  | cons c rest ih =>
    intro pc acc hex
    by_cases h : (read c).val ≠ (read pc).val
    · refine ⟨c, List.mem_cons_self c rest, h, ?_⟩
      simp only [ioscope_loop]
      rw [if_pos h]
      exact ioscope_loop_keep_dis read rest (some pc) _ _
    · obtain ⟨x, hx, hxne⟩ := hex
      rcases List.mem_cons.mp hx with rfl | hx2
      · exact absurd hxne h
      · obtain ⟨y, hy, hyne, hres⟩ := ih pc _ ⟨x, hx2, hxne⟩
        refine ⟨y, List.mem_cons_of_mem _ hy, hyne, ?_⟩
        simp only [ioscope_loop]
        rw [if_neg h]
        exact hres

theorem validate_ioscope_ok (prop : PropInfo) (rd : String → Nat → String → Option PVal)
    (pname : String) (mnames : Option (List String)) (c0 : Nat) (rest : List Nat)
    (h : ∀ c ∈ c0 :: rest,
      (get_cpu_prop_pvinfo prop rd pname c mnames).val =
        (get_cpu_prop_pvinfo prop rd pname c0 mnames).val) :
    validate_prop_vs_ioscope prop rd pname mnames (c0 :: rest) = .ok () := by
  unfold validate_prop_vs_ioscope
  simp only [ioscope_loop, List.nil_append]
  rw [ioscope_loop_agree _ rest c0 _
    (fun x hx => h x (List.mem_cons_of_mem _ hx))]

theorem validate_ioscope_err (prop : PropInfo) (rd : String → Nat → String → Option PVal)
    (pname : String) (mnames : Option (List String)) (c0 : Nat) (rest : List Nat)
    (h : ∃ c ∈ c0 :: rest,
      (get_cpu_prop_pvinfo prop rd pname c mnames).val ≠
        (get_cpu_prop_pvinfo prop rd pname c0 mnames).val) :
    ∃ c ∈ c0 :: rest,
      (get_cpu_prop_pvinfo prop rd pname c mnames).val ≠
        (get_cpu_prop_pvinfo prop rd pname c0 mnames).val ∧
      validate_prop_vs_ioscope prop rd pname mnames (c0 :: rest) =
        .error { cpu1 := c0,
                 val1 := (get_cpu_prop_pvinfo prop rd pname c0 mnames).val,
                 cpu2 := c,
                 val2 := (get_cpu_prop_pvinfo prop rd pname c mnames).val,
                 pvinfos := (c0 :: rest).map
                   (fun c => (c, get_cpu_prop_pvinfo prop rd pname c mnames)) } := by
  obtain ⟨x, hx, hxne⟩ := h
  have hx2 : x ∈ rest := by
    rcases List.mem_cons.mp hx with rfl | h2
    · exact absurd rfl hxne
    · exact h2
  obtain ⟨y, hy, hyne, hres⟩ :=
    ioscope_loop_disagree (fun c => get_cpu_prop_pvinfo prop rd pname c mnames) rest c0
      [(c0, get_cpu_prop_pvinfo prop rd pname c0 mnames)] ⟨x, hx2, hxne⟩
  refine ⟨y, List.mem_cons_of_mem _ hy, hyne, ?_⟩
  unfold validate_prop_vs_ioscope
  simp only [ioscope_loop, List.nil_append]
  rw [hres]
  rw [ioscope_loop_fst (fun c => get_cpu_prop_pvinfo prop rd pname c mnames) rest
    (some c0) [(c0, get_cpu_prop_pvinfo prop rd pname c0 mnames)] none]
  rfl

/-- C3: die-level and package-level reads of a property whose I/O scope
differs from its scope go through the I/O-scope reconciler: when all CPUs
of the unit agree the read succeeds with the common value; when two CPUs
disagree the read returns the `ErrorUsePerCPU` error carrying conflicting
(CPU, value) pairs — with the actual per-CPU values, taken from the unit —
and the property value dictionaries of every CPU of the unit, and never
returns a value. -/
theorem C3_ioscope_disagreement (prop : PropInfo) (rd : String → Nat → String → Option PVal)
    (t : Topology) (pname : String) (package d : Nat) (mnames : Option (List String))
    (hio : prop.sname ≠ prop.iosname) :
    (∀ c0 rest, package_to_cpus t package = c0 :: rest →
      ((∀ c1 ∈ c0 :: rest, ∀ c2 ∈ c0 :: rest,
          (get_cpu_prop_pvinfo prop rd pname c1 mnames).val =
            (get_cpu_prop_pvinfo prop rd pname c2 mnames).val) →
        get_package_prop_pvinfo prop rd t pname package mnames =
          .ok { package := package,
                val := (get_cpu_prop_pvinfo prop rd pname c0 mnames).val,
                mname := (get_cpu_prop_pvinfo prop rd pname c0 mnames).mname }) ∧
      ((∃ c1 ∈ c0 :: rest, ∃ c2 ∈ c0 :: rest,
          (get_cpu_prop_pvinfo prop rd pname c1 mnames).val ≠
            (get_cpu_prop_pvinfo prop rd pname c2 mnames).val) →
        ∃ e, get_package_prop_pvinfo prop rd t pname package mnames =
            .error (.ambiguous e) ∧
          e.cpu1 ∈ c0 :: rest ∧ e.cpu2 ∈ c0 :: rest ∧
          e.val1 = (get_cpu_prop_pvinfo prop rd pname e.cpu1 mnames).val ∧
          e.val2 = (get_cpu_prop_pvinfo prop rd pname e.cpu2 mnames).val ∧
          e.val1 ≠ e.val2 ∧
          e.pvinfos = (c0 :: rest).map
            (fun c => (c, get_cpu_prop_pvinfo prop rd pname c mnames)))) ∧
    (∀ c0 rest, dies_to_cpus t package d = c0 :: rest →
      ((∀ c1 ∈ c0 :: rest, ∀ c2 ∈ c0 :: rest,
          (get_cpu_prop_pvinfo prop rd pname c1 mnames).val =
            (get_cpu_prop_pvinfo prop rd pname c2 mnames).val) →
        get_die_prop_pvinfo prop rd t pname package d mnames =
          .ok { die := d, package := package,
                val := (get_cpu_prop_pvinfo prop rd pname c0 mnames).val,
                mname := (get_cpu_prop_pvinfo prop rd pname c0 mnames).mname }) ∧
      ((∃ c1 ∈ c0 :: rest, ∃ c2 ∈ c0 :: rest,
          (get_cpu_prop_pvinfo prop rd pname c1 mnames).val ≠
            (get_cpu_prop_pvinfo prop rd pname c2 mnames).val) →
        ∃ e, get_die_prop_pvinfo prop rd t pname package d mnames =
            .error (.ambiguous e) ∧
          e.cpu1 ∈ c0 :: rest ∧ e.cpu2 ∈ c0 :: rest ∧
          e.val1 = (get_cpu_prop_pvinfo prop rd pname e.cpu1 mnames).val ∧
          e.val2 = (get_cpu_prop_pvinfo prop rd pname e.cpu2 mnames).val ∧
          e.val1 ≠ e.val2 ∧
          e.pvinfos = (c0 :: rest).map
            (fun c => (c, get_cpu_prop_pvinfo prop rd pname c mnames)))) := by
  have key : ∀ cs : List Nat, ∀ c0 rest, cs = c0 :: rest →
      ((∀ c1 ∈ c0 :: rest, ∀ c2 ∈ c0 :: rest,
          (get_cpu_prop_pvinfo prop rd pname c1 mnames).val =
            (get_cpu_prop_pvinfo prop rd pname c2 mnames).val) →
        validate_prop_vs_ioscope prop rd pname mnames cs = .ok ()) ∧
      ((∃ c1 ∈ c0 :: rest, ∃ c2 ∈ c0 :: rest,
          (get_cpu_prop_pvinfo prop rd pname c1 mnames).val ≠
            (get_cpu_prop_pvinfo prop rd pname c2 mnames).val) →
        ∃ e, validate_prop_vs_ioscope prop rd pname mnames cs = .error e ∧
          e.cpu1 ∈ c0 :: rest ∧ e.cpu2 ∈ c0 :: rest ∧
          e.val1 = (get_cpu_prop_pvinfo prop rd pname e.cpu1 mnames).val ∧
          e.val2 = (get_cpu_prop_pvinfo prop rd pname e.cpu2 mnames).val ∧
          e.val1 ≠ e.val2 ∧
          e.pvinfos = (c0 :: rest).map
            (fun c => (c, get_cpu_prop_pvinfo prop rd pname c mnames))) := by
    intro cs c0 rest hcs
    subst hcs
    constructor
    · intro hagree
      exact validate_ioscope_ok prop rd pname mnames c0 rest
        (fun c hc => hagree c hc c0 (List.mem_cons_self c0 rest))
    · rintro ⟨c1, hc1, c2, hc2, hne⟩
      have hdiff : ∃ c ∈ c0 :: rest,
          (get_cpu_prop_pvinfo prop rd pname c mnames).val ≠
            (get_cpu_prop_pvinfo prop rd pname c0 mnames).val := by
        by_cases h1 : (get_cpu_prop_pvinfo prop rd pname c1 mnames).val =
            (get_cpu_prop_pvinfo prop rd pname c0 mnames).val
        · exact ⟨c2, hc2, fun h2 => hne (h1.trans h2.symm)⟩
        · exact ⟨c1, hc1, h1⟩
      obtain ⟨y, hy, hyne, hres⟩ := validate_ioscope_err prop rd pname mnames c0 rest hdiff
      refine ⟨_, hres, List.mem_cons_self c0 rest, hy, rfl, rfl, hyne.symm, rfl⟩
  constructor
  · intro c0 rest hcpus
    have hk := key (package_to_cpus t package) c0 rest hcpus
    constructor
    · intro hagree
      have hok := hk.1 hagree
      simp only [get_package_prop_pvinfo]
      rw [if_pos hio, hok, hcpus]
    · intro hex
      obtain ⟨e, he, h1, h2, h3, h4, h5, h6⟩ := hk.2 hex
      refine ⟨e, ?_, h1, h2, h3, h4, h5, h6⟩
      simp only [get_package_prop_pvinfo]
      rw [if_pos hio, he]
  · intro c0 rest hcpus
    have hk := key (dies_to_cpus t package d) c0 rest hcpus
    constructor
    · intro hagree
      have hok := hk.1 hagree
      simp only [get_die_prop_pvinfo]
      rw [if_pos hio, hok, hcpus]
    · intro hex
      obtain ⟨e, he, h1, h2, h3, h4, h5, h6⟩ := hk.2 hex
      refine ⟨e, ?_, h1, h2, h3, h4, h5, h6⟩
      simp only [get_die_prop_pvinfo]
      rw [if_pos hio, he]

/-- A property whose declared scope is package but whose I/O scope is CPU
(the `AmbiguousScope` scenario of the spec). -/
def prop_pkgcpu : PropInfo where
  name := "Package-scoped property"
  sname := "package"
  iosname := "CPU"
  mnames := ["msr"]
  writable := true
  type := "int"
  unit := none

/-- A per-CPU reader whose value is the CPU number itself, so sibling CPUs
always disagree. -/
def rd_percpu : String → Nat → String → Option PVal :=
  fun _ cpu _ => some (.i cpu)

/-- Witness for C3: on `topo4`, package 0 holds CPUs 0 and 1, which report
different values, so the package-level read returns the ambiguity error. -/
theorem C3_ioscope_disagreement_witness :
    prop_pkgcpu.sname ≠ prop_pkgcpu.iosname ∧
    ∃ e, get_package_prop_pvinfo prop_pkgcpu rd_percpu topo4 "p" 0 none =
      .error (.ambiguous e) := by
  have h := (C3_ioscope_disagreement prop_pkgcpu rd_percpu topo4 "p" 0 0 none
    (by decide)).1 0 [1] rfl
  obtain ⟨e, he, -, -, -, -, -, -⟩ := h.2 ⟨0, by decide, 1, by decide, by decide⟩
  exact ⟨by decide, e, he⟩

end Pepc

namespace Pepc

/-- Embedding of `_PropsClassBase._validate_mname()`: check a mechanism
name, either against the mechanisms declared for property `pname` or (with
no property) against the mechanisms supported by the class; with
`allow_readonly = false` a read-only mechanism is rejected.  An unknown
property name raises the Python `KeyError` from the `_props` access. -/
def validate_mname (pc : PropsClass) (mname : String) (pname : Option String)
    (allow_readonly : Bool) : Except PepcErr Unit :=
  match pname with
  | some pn =>
    match alist_get pc.props pn with
    | none => .error (.keyError pn)
    | some prop =>
      if mname ∉ prop.mnames then .error (.unsupportedMech mname)
      else if !allow_readonly && !(mech_writable mname) then .error (.readOnlyMech mname)
      else .ok ()
  | none =>
    if mname ∉ class_mechanisms pc then .error (.unsupportedMech mname)
    else if !allow_readonly && !(mech_writable mname) then .error (.readOnlyMech mname)
    else .ok ()

/-- The validation loop of `_normalize_mnames()`: validate every mechanism
name in order, stopping at the first invalid one. -/
def validate_mnames_list (pc : PropsClass) (pname : Option String) (allow_readonly : Bool) :
    List String → Except PepcErr Unit
  | [] => .ok ()
  | m :: rest =>
    match validate_mname pc m pname allow_readonly with
    | .error e => .error e
    | .ok () => validate_mnames_list pc pname allow_readonly rest

/-- Embedding of `_PropsClassBase._normalize_mnames()`: with no list given,
use the property's declared mechanism list (or the class mechanisms);
otherwise validate every name and deduplicate the list preserving the order
of first occurrences (`Trivial.list_dedup`). -/
def normalize_mnames (pc : PropsClass) (mnames : Option (List String)) (pname : Option String)
    (allow_readonly : Bool) : Except PepcErr (List String) :=
  match mnames with
  | none =>
    match pname with
    | some pn =>
      match alist_get pc.props pn with
      | none => .error (.keyError pn)
      | some prop => .ok prop.mnames
    | none => .ok (class_mechanisms pc)
  | some ms =>
    match validate_mnames_list pc pname allow_readonly ms with
    | .error e => .error e
    | .ok () => .ok (listDedup ms)

/-- Embedding of `_PropsClassBase._validate_prop_vs_scope()`: whether a
property may be accessed on a per-die or per-package basis.  Die access
allows die/package/global-scoped properties, package access allows
package/global; when package 0 has exactly one die, "die" is added to the
allowed scopes (the code checks `get_dies(package=0)` only). -/
def validate_prop_vs_scope (t : Topology) (prop : PropInfo) (sname : String) :
    Except PepcErr Unit :=
  match (if sname = "die" then some ["die", "package", "global"]
         else if sname = "package" then some ["package", "global"]
         else (none : Option (List String))) with
  | none => .error (.bug sname)
  | some okBase =>
    let ok := if (get_dies t 0).length = 1 then okBase ++ ["die"] else okBase
    if prop.sname ∈ ok then .ok () else .error (.crossScope sname prop.sname)

/-- The validation prefix of `get_prop_dies()`: property lookup, mechanism
normalization, cross-scope validation; on success return the list of
(package, die) units whose property value dictionaries the generator then
yields. -/
def get_prop_dies_pipe (pc : PropsClass) (t : Topology) (pname : String)
    (dies : List (Nat × List Nat)) (mnames : Option (List String)) :
    Except PepcErr (List (Nat × Nat)) :=
  match alist_get pc.props pname with
  | none => .error (.unknownProperty pname)
  | some prop =>
    match normalize_mnames pc mnames (some pname) true with
    | .error e => .error e
    | .ok _ =>
      match validate_prop_vs_scope t prop "die" with
      | .error e => .error e
      | .ok () => .ok (dies.flatMap (fun pd => pd.2.map (fun d => (pd.1, d))))

/-- The validation prefix of `get_prop_packages()`: like
`get_prop_dies_pipe` with package-level cross-scope validation. -/
def get_prop_packages_pipe (pc : PropsClass) (t : Topology) (pname : String)
    (packages : List Nat) (mnames : Option (List String)) :
    Except PepcErr (List Nat) :=
  match alist_get pc.props pname with
  | none => .error (.unknownProperty pname)
  | some prop =>
    match normalize_mnames pc mnames (some pname) true with
    | .error e => .error e
    | .ok _ =>
      match validate_prop_vs_scope t prop "package" with
      | .error e => .error e
      | .ok () => .ok packages

end Pepc

namespace Pepc

theorem validate_pvs_die (t : Topology) (prop : PropInfo) :
    validate_prop_vs_scope t prop "die" =
      (if prop.sname ∈ (if (get_dies t 0).length = 1
          then (["die", "package", "global"] : List String) ++ ["die"]
          else ["die", "package", "global"]) then .ok ()
       else .error (.crossScope "die" prop.sname)) := rfl

theorem validate_pvs_package (t : Topology) (prop : PropInfo) :
    validate_prop_vs_scope t prop "package" =
      (if prop.sname ∈ (if (get_dies t 0).length = 1
          then (["package", "global"] : List String) ++ ["die"]
          else ["package", "global"]) then .ok ()
       else .error (.crossScope "package" prop.sname)) := rfl

theorem mem_ite_ok_iff (sname : String) (asname : String) (okList : List String) :
    ((if sname ∈ okList then (.ok () : Except PepcErr Unit)
      else .error (.crossScope asname sname)) = .ok ()) ↔ sname ∈ okList := by
  by_cases hm : sname ∈ okList
  · simp [hm]
  · simp [hm]

/-- A die-scoped property, for the cross-scope counterexample. -/
def prop_diescope : PropInfo where
  name := "Die-scoped property"
  sname := "die"
  iosname := "die"
  mnames := ["msr"]
  writable := true
  type := "int"
  unit := none

/-- An asymmetric topology: package 0 has one die (CPU 0), package 1 has
two dies (CPU 1 in die 0, CPU 2 in die 1). -/
def topoAsym : Topology where
  cpus := [0, 1, 2]
  pkg := fun c => if c = 0 then 0 else 1
  die := fun c => if c = 2 then 1 else 0
  core := fun _ => 0

/-- C7 (counterexample): the claim ties the die/package interchange to "a
platform with exactly one die per package", but the code checks only
package 0 (`get_dies(package=0)`).  On `topoAsym` package 1 has two dies,
yet package-level access to a die-scoped property is permitted. -/
theorem C7_package_access_not_platform_wide :
    ¬ (∀ (t : Topology) (prop : PropInfo),
        (validate_prop_vs_scope t prop "package" = .ok ()) ↔
          (prop.sname ∈ (["package", "global"] : List String) ∨
           ((∀ p ∈ get_packages t, (get_dies t p).length = 1) ∧ prop.sname = "die"))) := by
  intro h
  have hmp := (h topoAsym prop_diescope).mp (by decide)
  rcases hmp with h1 | ⟨h2, -⟩
  · exact absurd h1 (by decide)
  · exact absurd (h2 1 (by decide)) (by decide)

/-- C7 (amended): die-level access is permitted exactly for properties with
die/package/global scope; package-level access exactly for package/global
scope, or for a die-scoped property when package 0 has exactly one die (the
condition the code actually checks); a violation yields an error, and the
die/package read pipelines yield their target units only when the
cross-scope validation passed. -/
theorem C7_cross_scope_check (t : Topology) (prop : PropInfo) (pc : PropsClass)
    (pname : String) (hlookup : alist_get pc.props pname = some prop) :
    ((validate_prop_vs_scope t prop "die" = .ok ()) ↔
      prop.sname ∈ (["die", "package", "global"] : List String)) ∧
    ((validate_prop_vs_scope t prop "package" = .ok ()) ↔
      (prop.sname ∈ (["package", "global"] : List String) ∨
       ((get_dies t 0).length = 1 ∧ prop.sname = "die"))) ∧
    (∀ dies mnames targets, get_prop_dies_pipe pc t pname dies mnames = .ok targets →
      validate_prop_vs_scope t prop "die" = .ok ()) ∧
    (∀ packages mnames targets,
      get_prop_packages_pipe pc t pname packages mnames = .ok targets →
      validate_prop_vs_scope t prop "package" = .ok ()) := by
  refine ⟨?_, ?_, ?_, ?_⟩
  · rw [validate_pvs_die]
    by_cases hd : (get_dies t 0).length = 1
    · rw [if_pos hd, mem_ite_ok_iff]
      constructor
      · intro hok
        rcases List.mem_append.mp hok with h | h
        · exact h
        · rw [List.mem_singleton] at h
          rw [h]
          decide
      · intro hmem
        exact List.mem_append.mpr (Or.inl hmem)
    · rw [if_neg hd, mem_ite_ok_iff]
  · rw [validate_pvs_package]
    by_cases hd : (get_dies t 0).length = 1
    · rw [if_pos hd, mem_ite_ok_iff]
      constructor
      · intro hok
        rcases List.mem_append.mp hok with h | h
        · exact Or.inl h
        · rw [List.mem_singleton] at h
          exact Or.inr ⟨hd, h⟩
      · rintro (h | ⟨-, h⟩)
        · exact List.mem_append.mpr (Or.inl h)
        · exact List.mem_append.mpr (Or.inr (by rw [h]; decide))
    · rw [if_neg hd, mem_ite_ok_iff]
      constructor
      · exact Or.inl
      · rintro (h | ⟨h1, -⟩)
        · exact h
        · exact absurd h1 hd
  · intro dies mnames targets hok
    unfold get_prop_dies_pipe at hok
    rw [hlookup] at hok
    cases hn : normalize_mnames pc mnames (some pname) true with
    | error e =>
      simp only [hn] at hok
      exact Except.noConfusion hok
    | ok ms =>
      simp only [hn] at hok
      cases hv : validate_prop_vs_scope t prop "die" with
      | error e =>
        simp only [hv] at hok
        exact Except.noConfusion hok
      | ok u => cases u; rfl
  · intro packages mnames targets hok
    unfold get_prop_packages_pipe at hok
    rw [hlookup] at hok
    cases hn : normalize_mnames pc mnames (some pname) true with
    | error e =>
      simp only [hn] at hok
      exact Except.noConfusion hok
    | ok ms =>
      simp only [hn] at hok
      cases hv : validate_prop_vs_scope t prop "package" with
      | error e =>
        simp only [hv] at hok
        exact Except.noConfusion hok
      | ok u => cases u; rfl

/-- A sample property class holding `prop_sample` and `prop_pkgcpu`. -/
def pc_sample : PropsClass where
  props := [("sample", prop_sample), ("pkgcpu", prop_pkgcpu)]

/-- Witness for C7: concrete run on `topo4` with the die-scope check of the
CPU-scoped sample property, which is rejected. -/
theorem C7_cross_scope_check_witness :
    alist_get pc_sample.props "sample" = some prop_sample ∧
    ¬ (validate_prop_vs_scope topo4 prop_sample "die" = .ok ()) := by
  refine ⟨by decide, fun hok => ?_⟩
  have hmem := (C7_cross_scope_check topo4 prop_sample pc_sample "sample" (by decide)).1.mp hok
  exact absurd hmem (by decide)

end Pepc

namespace Pepc

/-- The containment order of scope names from the spec (global ⊇ package ⊇
die ⊇ core ⊇ CPU): a smaller rank means a finer scope. -/
def sname_rank (sname : String) : Nat :=
  if sname = "CPU" then 0
  else if sname = "core" then 1
  else if sname = "die" then 2
  else if sname = "package" then 3
  else 4

/-- Embedding of `_PropsClassBase._set_prop_dies()` (the default
implementation): for every targeted die pick its first CPU and delegate the
write to the per-CPU setter with exactly those CPUs.  The property metadata
— in particular its I/O scope — plays no role in the selection.  A die of
the `dies` dictionary always has at least one online CPU; for a unit with
no CPUs the Python indexing would raise, the embedding uses `headD`. -/
def set_prop_dies_cpus (t : Topology) (dies : List (Nat × List Nat)) : List Nat :=
  dies.flatMap (fun pd => pd.2.map (fun d => (dies_to_cpus t pd.1 d).headD 0))

/-- Embedding of `_PropsClassBase._set_prop_packages()` (the default
implementation): one representative CPU — the first — per package. -/
def set_prop_packages_cpus (t : Topology) (packages : List Nat) : List Nat :=
  packages.map (fun p => (package_to_cpus t p).headD 0)

/-- C4 (counterexample): for `prop_pkgcpu` (scope package, I/O scope CPU,
strictly finer), a package-level set on `topo4` dispatches the write to
CPU 0 only, not to every CPU of package 0 (CPUs 0 and 1) as the claim
requires for a property whose I/O scope is finer than its scope. -/
theorem C4_write_not_expanded_to_unit :
    ¬ (∀ (prop : PropInfo) (t : Topology) (packages : List Nat),
        sname_rank prop.iosname < sname_rank prop.sname →
        set_prop_packages_cpus t packages =
          packages.flatMap (fun p => package_to_cpus t p)) := by
  intro h
  exact absurd (h prop_pkgcpu topo4 [0] (by decide)) (by decide)

theorem set_prop_dies_cpus_length (t : Topology) (dies : List (Nat × List Nat)) :
    (set_prop_dies_cpus t dies).length = (dies.map (fun pd => pd.2.length)).sum := by
  unfold set_prop_dies_cpus
  induction dies with
  | nil => rfl
  | cons pd rest ih =>
    simp only [List.flatMap_cons, List.length_append, List.length_map, List.map_cons,
      List.sum_cons, ih]

theorem headD_mem {l : List Nat} (h : l ≠ []) : l.headD 0 ∈ l := by
  cases l with
  | nil => exact absurd rfl h
  | cons a rest => exact List.mem_cons_self a rest

/-- C4 (amended): a die- or package-granularity set always dispatches the
write to exactly one representative CPU per targeted unit — the unit's
first online CPU — regardless of the property's I/O scope. -/
theorem C4_set_one_representative (t : Topology) (dies : List (Nat × List Nat))
    (packages : List Nat)
    (hd : ∀ pd ∈ dies, ∀ d ∈ pd.2, dies_to_cpus t pd.1 d ≠ [])
    (hp : ∀ p ∈ packages, package_to_cpus t p ≠ []) :
    ((set_prop_dies_cpus t dies).length = (dies.map (fun pd => pd.2.length)).sum ∧
      ∀ pd ∈ dies, ∀ d ∈ pd.2,
        (dies_to_cpus t pd.1 d).headD 0 ∈ set_prop_dies_cpus t dies ∧
        (dies_to_cpus t pd.1 d).headD 0 ∈ dies_to_cpus t pd.1 d) ∧
    ((set_prop_packages_cpus t packages).length = packages.length ∧
      ∀ p ∈ packages,
        (package_to_cpus t p).headD 0 ∈ set_prop_packages_cpus t packages ∧
        (package_to_cpus t p).headD 0 ∈ package_to_cpus t p) := by
  refine ⟨⟨set_prop_dies_cpus_length t dies, ?_⟩, ⟨List.length_map _ _, ?_⟩⟩
  · intro pd hpd d hdm
    refine ⟨?_, headD_mem (hd pd hpd d hdm)⟩
    unfold set_prop_dies_cpus
    exact List.mem_flatMap.mpr ⟨pd, hpd, List.mem_map.mpr ⟨d, hdm, rfl⟩⟩
  · intro p hpm
    refine ⟨?_, headD_mem (hp p hpm)⟩
    unfold set_prop_packages_cpus
    exact List.mem_map.mpr ⟨p, hpm, rfl⟩

/-- Witness for C4 (amended): concrete run on `topo4`. -/
theorem C4_set_one_representative_witness :
    (∀ pd ∈ ([(0, [0])] : List (Nat × List Nat)), ∀ d ∈ pd.2,
      dies_to_cpus topo4 pd.1 d ≠ []) ∧
    (∀ p ∈ ([1] : List Nat), package_to_cpus topo4 p ≠ []) ∧
    (set_prop_packages_cpus topo4 [1]).length = ([1] : List Nat).length :=
  ⟨by decide, by decide,
    (C4_set_one_representative topo4 [(0, [0])] [1] (by decide) (by decide)).2.1⟩

end Pepc

namespace Pepc

/-- Outcome of writing the per-CPU EPP sysfs file through the process
manager: success, `ErrorNotFound` (the file is absent because the kernel
does not expose the knob), or another failure such as permission denied. -/
inductive SysfsWriteRes
  | ok
  | notFound
  | fail
deriving DecidableEq

/-- The environment of one `EPP._set_cpu_epp()` call: whether EPP is
supported on the CPU, the available policy names, the outcome the sysfs
write would have, and the policy string `_get_cpu_epp_policy_from_sysfs()`
would read back (`None` when the file is absent). -/
structure EppEnv where
  supported : Bool
  policies : List String
  sysfsWrite : SysfsWriteRes
  sysfsPolicy : Option String
deriving DecidableEq

/-- Embedding of `EPP._set_cpu_epp_via_sysfs()`: try the sysfs write; on
`ErrorNotFound` return `None` (the caller then falls back to the MSR); on
any other failure first apply the kernel-bug workaround — when the sysfs
file already reports the requested value the write is treated as a success
— and otherwise raise; on success return the written value. -/
def set_cpu_epp_via_sysfs (env : EppEnv) (epp : String) : Except String (Option String) :=
  match env.sysfsWrite with
  | .ok => .ok (some epp)
  | .notFound => .ok none
  | .fail =>
    if env.sysfsPolicy = some epp then .ok (some epp)
    else .error "failed to set EPP"

/-- Which mechanism performed the EPP write. -/
inductive EppOutcome
  | viaSysfs
  | viaMsr
deriving DecidableEq

/-- Embedding of `EPP._set_cpu_epp()`: check support, validate the value
(an integer must lie in [0, 255]; a non-integer must name a supported
policy; `eppInt` stands for `int(epp)` when `Trivial.is_int(epp)` holds, a
helper not in the sources), then write via sysfs; only when that returned
`None` (sysfs file absent) disable package control and write the MSR.  The
successful-path cache update and the MSR accessor internals are outside
this embedding. -/
def set_cpu_epp (env : EppEnv) (epp : String) (eppInt : Option Int) :
    Except String EppOutcome :=
  if !env.supported then .error "CPU does not support EPP"
  else
    let validation : Except String Unit :=
      match eppInt with
      | some n =>
        if n < 0 ∨ n > 255 then .error "EPP is out of range" else .ok ()
      | none =>
        if epp.toLower ∉ env.policies then .error "EPP policy is not supported"
        else .ok ()
    match validation with
    | .error e => .error e
    | .ok () =>
      match set_cpu_epp_via_sysfs env epp with
      | .error e => .error e
      | .ok r =>
        if r = some epp then .ok .viaSysfs
        else .ok .viaMsr

/-- An environment where the sysfs write fails with an error that is not
`ErrorNotFound` while the file already reports the requested value. -/
def env_workaround : EppEnv where
  supported := true
  policies := []
  sysfsWrite := .fail
  sysfsPolicy := some "128"

/-- C5 (counterexample): a failure other than NotFound does NOT always
propagate: when the sysfs file already reports the requested value, the
failed write is swallowed and treated as a successful sysfs write (the
kernel-bug workaround in `_set_cpu_epp_via_sysfs()`). -/
theorem C5_other_failure_can_be_swallowed :
    ¬ (∀ (env : EppEnv) (epp : String) (n : Int),
        env.sysfsWrite = SysfsWriteRes.fail →
        ∃ e, set_cpu_epp env epp (some n) = .error e) := by
  intro h
  obtain ⟨e, he⟩ := h env_workaround "128" 128 rfl
  rw [show set_cpu_epp env_workaround "128" (some 128) = .ok .viaSysfs from rfl] at he
  exact Except.noConfusion he

/-- C5 (amended): for an EPP set of a valid integer value on a supported
CPU: a NotFound sysfs failure falls back to the MSR mechanism; any other
sysfs failure propagates immediately — without the MSR being attempted —
unless the sysfs file already reports the requested value, in which case
the write counts as a sysfs success (kernel-bug workaround); a successful
sysfs write never touches the MSR. -/
theorem C5_set_epp_fallback (env : EppEnv) (epp : String) (n : Int)
    (hsup : env.supported = true) (hlo : 0 ≤ n) (hhi : n ≤ 255) :
    (env.sysfsWrite = .notFound → set_cpu_epp env epp (some n) = .ok .viaMsr) ∧
    (env.sysfsWrite = .fail → env.sysfsPolicy ≠ some epp →
      set_cpu_epp env epp (some n) = .error "failed to set EPP") ∧
    (env.sysfsWrite = .fail → env.sysfsPolicy = some epp →
      set_cpu_epp env epp (some n) = .ok .viaSysfs) ∧
    (env.sysfsWrite = .ok → set_cpu_epp env epp (some n) = .ok .viaSysfs) := by
  refine ⟨?_, ?_, ?_, ?_⟩
  · intro hw
    simp only [set_cpu_epp, set_cpu_epp_via_sysfs, hsup, hw, Bool.not_true, Bool.false_eq_true,
      if_false]
    rw [if_neg (by omega)]
    simp
  · intro hw hpol
    simp only [set_cpu_epp, set_cpu_epp_via_sysfs, hsup, hw, Bool.not_true, Bool.false_eq_true,
      if_false]
    rw [if_neg (by omega), if_neg hpol]
  · intro hw hpol
    simp only [set_cpu_epp, set_cpu_epp_via_sysfs, hsup, hw, Bool.not_true, Bool.false_eq_true,
      if_false]
    rw [if_neg (by omega), if_pos hpol]
    simp
  · intro hw
    simp only [set_cpu_epp, set_cpu_epp_via_sysfs, hsup, hw, Bool.not_true, Bool.false_eq_true,
      if_false]
    rw [if_neg (by omega)]
    simp

/-- An environment where the EPP sysfs file is absent (NotFound). -/
def env_notfound : EppEnv where
  supported := true
  policies := []
  sysfsWrite := .notFound
  sysfsPolicy := none

/-- Witness for C5 (amended): a NotFound sysfs failure on a supported CPU
falls back to the MSR. -/
theorem C5_set_epp_fallback_witness :
    env_notfound.supported = true ∧
    set_cpu_epp env_notfound "42" (some 42) = .ok .viaMsr :=
  ⟨rfl, (C5_set_epp_fallback env_notfound "42" 42 rfl (by omega) (by omega)).1 rfl⟩

end Pepc

namespace Pepc

/-- A result-cache key: (property id, CPU, mechanism name). -/
abbrev CacheKey := String × Nat × String

/-- Modelled from the spec: the `_PropsCache.PropsCache` Result Cache (not
in the sources).  `get` returns the memoized value and raises
`ErrorNotFound` on a miss (outer `none` here); `add` stores and returns the
value; `remove` drops the entry; with caching disabled every `get` misses
and `add`/`remove` do nothing, making every read a passthrough.  A cached
value may itself be `None` (an absent sysfs file). -/
structure PCache where
  enabled : Bool
  entries : List (CacheKey × Option Int)

/-- Cache lookup: outer `none` models the `ErrorNotFound` miss. -/
def pcache_get (c : PCache) (k : CacheKey) : Option (Option Int) :=
  if c.enabled then alist_get c.entries k else none

/-- Cache store; returns the value to enable compute-and-cache call
sites. -/
def pcache_add (c : PCache) (k : CacheKey) (v : Option Int) : Option Int × PCache :=
  if c.enabled then
    (v, { c with entries := (k, v) :: c.entries.filter (fun e => e.1 ≠ k) })
  else (v, c)

/-- Cache invalidation of one key. -/
def pcache_remove (c : PCache) (k : CacheKey) : PCache :=
  if c.enabled then { c with entries := c.entries.filter (fun e => e.1 ≠ k) } else c

/-- The state of one `EPB` instance relevant to the sysfs mechanism: the
property cache, the per-CPU content of the EPB sysfs file (`none` when the
file is absent), the `_epb_policies` name-to-value dictionary, and a
counter of underlying sysfs accesses made through the process manager. -/
structure EpbState where
  pcache : PCache
  sysfs : Nat → Option Int
  policies : List (String × Option Int)
  accesses : Nat

/-- Embedding of `EPB._read_from_sysfs()`: return the cached value when one
is present; otherwise read the sysfs file — one underlying access; an
absent file yields `None` rather than raising — and add the result to the
cache. -/
def read_from_sysfs (s : EpbState) (cpu : Nat) : Option Int × EpbState :=
  match pcache_get s.pcache ("epb", cpu, "sysfs") with
  | some v => (v, s)
  | none =>
    let v := s.sysfs cpu
    let s2 := { s with accesses := s.accesses + 1 }
    let r := pcache_add s2.pcache ("epb", cpu, "sysfs") v
    (r.1, { s2 with pcache := r.2 })

/-- Errors of `EPB._write_to_sysfs()`: an absent sysfs file raises
`ErrorNotSupported` (converted from `ErrorNotFound`); a policy name missing
from `_epb_policies` would be a Python `KeyError`; reading back `None`
would be a Python `TypeError` inside `int()`. -/
inductive EpbWriteErr
  | notSupported
  | keyError (name : String)
  | typeError
deriving DecidableEq

/-- The Python falsiness test `not self._epb_policies[val]`: true for both
`None` and `0`. -/
def policy_falsy (o : Option Int) : Bool :=
  match o with
  | none => true
  | some x => x = 0

/-- Embedding of `EPB._write_to_sysfs()`: remove the cache entry first,
then write the sysfs file (an absent file raises); a policy-name value is
stored by the kernel as the policy's numeric value (`kernelPolicyVal`
models the kernel side), read back on first use and memoized in
`_epb_policies`; the cache is then re-populated with the numeric value
actually written. -/
def write_to_sysfs (kernelPolicyVal : String → Int) (s : EpbState) (cpu : Nat)
    (val : String) (valInt : Option Int) : EpbState × Except EpbWriteErr Unit :=
  let s := { s with pcache := pcache_remove s.pcache ("epb", cpu, "sysfs") }
  match s.sysfs cpu with
  | none => (s, .error .notSupported)
  | some _ =>
    match valInt with
    | some n =>
      let s := { s with sysfs := fun c => if c = cpu then some n else s.sysfs c }
      let r := pcache_add s.pcache ("epb", cpu, "sysfs") (some n)
      ({ s with pcache := r.2 }, .ok ())
    | none =>
      let s := { s with
        sysfs := fun c => if c = cpu then some (kernelPolicyVal val) else s.sysfs c }
      match alist_get s.policies val with
      | none => (s, .error (.keyError val))
      | some pv0 =>
        if policy_falsy pv0 then
          match read_from_sysfs s cpu with
          | (none, s2) => (s2, .error .typeError)
          | (some pv, s2) =>
            let s3 := { s2 with
              policies := (val, some pv) :: s2.policies.filter (fun e => e.1 ≠ val) }
            let r := pcache_add s3.pcache ("epb", cpu, "sysfs") (some pv)
            ({ s3 with pcache := r.2 }, .ok ())
        else
          let pv := pv0.getD 0
          let r := pcache_add s.pcache ("epb", cpu, "sysfs") (some pv)
          ({ s with pcache := r.2 }, .ok ())

end Pepc

namespace Pepc

theorem pcache_remove_enabled (c : PCache) (k : CacheKey) :
    (pcache_remove c k).enabled = c.enabled := by
  by_cases h : c.enabled <;> simp [pcache_remove, h]

theorem pcache_add_enabled (c : PCache) (k : CacheKey) (v : Option Int) :
    (pcache_add c k v).2.enabled = c.enabled := by
  by_cases h : c.enabled <;> simp [pcache_add, h]

theorem pcache_add_fst (c : PCache) (k : CacheKey) (v : Option Int) :
    (pcache_add c k v).1 = v := by
  by_cases h : c.enabled <;> simp [pcache_add, h]

theorem pcache_get_add (c : PCache) (k : CacheKey) (v : Option Int)
    (h : c.enabled = true) :
    pcache_get (pcache_add c k v).2 k = some v := by
  simp [pcache_add, pcache_get, alist_get, h]

theorem pcache_get_remove (c : PCache) (k : CacheKey) :
    pcache_get (pcache_remove c k) k = none := by
  by_cases h : c.enabled
  · simp only [pcache_remove, pcache_get, alist_get, h, if_pos]
    rw [List.find?_eq_none.mpr]
    · rfl
    · intro x hx
      have := (List.mem_filter.mp hx).2
      simp only [decide_eq_true_eq] at this ⊢
      exact this
  · simp [pcache_remove, pcache_get, h]

theorem epb_write_then_read (kpv : String → Int) (s : EpbState) (cpu : Nat) (val : String)
    (n : Int) (henabled : s.pcache.enabled = true)
    (hok : (write_to_sysfs kpv s cpu val (some n)).2 = .ok ()) :
    read_from_sysfs (write_to_sysfs kpv s cpu val (some n)).1 cpu =
      (some n, (write_to_sysfs kpv s cpu val (some n)).1) := by
  cases hfile : s.sysfs cpu with
  | none =>
    unfold write_to_sysfs at hok
    simp only [hfile] at hok
    exact Except.noConfusion hok
  | some x =>
    unfold write_to_sysfs
    simp only [hfile]
    unfold read_from_sysfs
    rw [pcache_get_add _ _ _ (by rw [pcache_remove_enabled]; exact henabled)]

theorem epb_failed_write_leaves_no_stale (kpv : String → Int) (s : EpbState) (cpu : Nat)
    (val : String) (n : Int)
    (hfail : (write_to_sysfs kpv s cpu val (some n)).2 ≠ .ok ()) :
    pcache_get (write_to_sysfs kpv s cpu val (some n)).1.pcache ("epb", cpu, "sysfs") =
      none := by
  cases hfile : s.sysfs cpu with
  | none =>
    unfold write_to_sysfs
    simp only [hfile]
    exact pcache_get_remove s.pcache ("epb", cpu, "sysfs")
  | some x =>
    exfalso
    apply hfail
    unfold write_to_sysfs
    simp only [hfile]

theorem epb_double_read (s : EpbState) (cpu : Nat) (henabled : s.pcache.enabled = true)
    (v : Option Int) (s1 : EpbState) (h : read_from_sysfs s cpu = (v, s1)) :
    read_from_sysfs s1 cpu = (v, s1) ∧ s1.accesses ≤ s.accesses + 1 := by
  unfold read_from_sysfs at h
  cases hget : pcache_get s.pcache ("epb", cpu, "sysfs") with
  | some v0 =>
    rw [hget] at h
    cases h
    constructor
    · unfold read_from_sysfs
      rw [hget]
    · omega
  | none =>
    simp only [hget, pcache_add_fst] at h
    cases h
    constructor
    · unfold read_from_sysfs
      rw [pcache_get_add _ _ _ henabled]
    · simp

end Pepc

namespace Pepc

/-- C6: cache coherence of the EPB sysfs mechanism (with caching enabled).
The cache entry is removed before the write and re-populated with the newly
written value: after a successful write, a read returns the newly written
value straight from the cache (never the pre-write cached value, no extra
accessor call); after a failed write the entry is gone, so no stale value
is observable; and two consecutive reads with no intervening write return
the same value, leave the state unchanged, and perform at most one
underlying sysfs access. -/
theorem C6_cache_coherence (kpv : String → Int) (s : EpbState) (cpu : Nat) (val : String)
    (n : Int) (henabled : s.pcache.enabled = true) :
    ((write_to_sysfs kpv s cpu val (some n)).2 = .ok () →
      read_from_sysfs (write_to_sysfs kpv s cpu val (some n)).1 cpu =
        (some n, (write_to_sysfs kpv s cpu val (some n)).1)) ∧
    ((write_to_sysfs kpv s cpu val (some n)).2 ≠ .ok () →
      pcache_get (write_to_sysfs kpv s cpu val (some n)).1.pcache ("epb", cpu, "sysfs") =
        none) ∧
    (∀ v s1, read_from_sysfs s cpu = (v, s1) →
      read_from_sysfs s1 cpu = (v, s1) ∧ s1.accesses ≤ s.accesses + 1) :=
  ⟨fun hok => epb_write_then_read kpv s cpu val n henabled hok,
   fun hfail => epb_failed_write_leaves_no_stale kpv s cpu val n hfail,
   fun v s1 h => epb_double_read s cpu henabled v s1 h⟩

/-- A concrete EPB state: a stale cached value 5 for CPU 0, a sysfs file
holding 7, caching enabled. -/
def epb_s0 : EpbState where
  pcache := { enabled := true, entries := [(("epb", 0, "sysfs"), some 5)] }
  sysfs := fun _ => some 7
  policies := []
  accesses := 0

/-- Witness for C6: writing 3 on `epb_s0` succeeds and the next read
returns 3, not the stale cached 5. -/
theorem C6_cache_coherence_witness :
    epb_s0.pcache.enabled = true ∧
    read_from_sysfs (write_to_sysfs (fun _ => 0) epb_s0 0 "3" (some 3)).1 0 =
      (some 3, (write_to_sysfs (fun _ => 0) epb_s0 0 "3" (some 3)).1) :=
  ⟨rfl, (C6_cache_coherence (fun _ => 0) epb_s0 0 "3" 3 rfl).1 rfl⟩

end Pepc

namespace Pepc

/-- Embedding of `_PropsClassBase._normalize_bool_type_value()`: the
booleans pass through; the lowercased strings on/enable and off/disable map
to booleans; any other string raises, and a number would raise the Python
`AttributeError` from `.lower()` — both are errors here. -/
def normalize_bool_type_value (pname : String) (val : PVal) : Except PepcErr Bool :=
  match val with
  | .b x => .ok x
  | .s v =>
    let l := v.toLower
    if l = "on" ∨ l = "enable" then .ok true
    else if l = "off" ∨ l = "disable" then .ok false
    else .error (.invalidValue pname)
  | .i _ => .error (.invalidValue pname)

/-- Embedding of `_PropsClassBase._normalize_inprop()`: reject an unknown
property and a read-only property; normalize boolean-typed values; for a
property with a unit, a numeric value is used as is (the int/float
coercion is identity on the typed `PVal`) and a non-numeric value goes
through unit parsing (`Trivial.is_num` and `Human.parse_human` are
abstracted by the `isNum` and `parseHuman` parameters; special values are
not modelled). -/
def normalize_inprop (pc : PropsClass) (isNum : PVal → Bool)
    (parseHuman : PVal → Except PepcErr PVal) (pname : String) (val : PVal) :
    Except PepcErr PVal :=
  match alist_get pc.props pname with
  | none => .error (.unknownProperty pname)
  | some prop =>
    if ¬ prop.writable then .error (.notWritable pname)
    else
      let step1 : Except PepcErr PVal :=
        if prop.type = "bool" then
          match normalize_bool_type_value pname val with
          | .error e => .error e
          | .ok b => .ok (.b b)
        else .ok val
      match step1 with
      | .error e => .error e
      | .ok v1 =>
        match prop.unit with
        | none => .ok v1
        | some _ => if isNum v1 then .ok v1 else parseHuman v1

/-- Insertion into a sorted list of CPU numbers. -/
def insert_sorted (n : Nat) : List Nat → List Nat
  | [] => [n]
  | x :: xs => if n ≤ x then n :: x :: xs else x :: insert_sorted n xs

/-- Insertion sort of CPU numbers. -/
def sort_nats : List Nat → List Nat
  | [] => []
  | x :: xs => insert_sorted x (sort_nats xs)

/-- Modelled from the spec: `CPUInfo.normalize_cpus()` (not in the
sources) — expand the targets into an ascending, deduplicated list of
online CPU numbers; an unknown or offline CPU fails with InvalidTarget
naming the offending CPUs. -/
def normalize_cpus (t : Topology) (cpus : List Nat) : Except PepcErr (List Nat) :=
  if cpus.all (fun c => t.cpus.contains c) then .ok (sort_nats (listDedup cpus))
  else .error (.invalidTarget (cpus.filter (fun c => !(t.cpus.contains c))))

/-- The validation pipeline of `set_prop_cpus()` in source order: mechanism
normalization (writable mechanisms only), input-value normalization, CPU
normalization, then scope validation; only after all of them is the write
dispatched to the subclass `_set_prop_cpus()`.  On success the result
carries the CPUs, mechanisms and value the dispatch would receive
(`_set_sname` is a no-op for properties with a fixed scope and is not
modelled). -/
def set_prop_cpus_pipe (pc : PropsClass) (t : Topology) (isNum : PVal → Bool)
    (parseHuman : PVal → Except PepcErr PVal) (pname : String) (val : PVal)
    (cpus : List Nat) (mnames : Option (List String)) :
    Except PepcErr (List Nat × List String × PVal) :=
  match normalize_mnames pc mnames (some pname) false with
  | .error e => .error e
  | .ok ms =>
    match normalize_inprop pc isNum parseHuman pname val with
    | .error e => .error e
    | .ok v =>
      match normalize_cpus t cpus with
      | .error e => .error e
      | .ok cs =>
        match alist_get pc.props pname with
        | none => .error (.keyError pname)
        | some prop =>
          match validate_cpus_vs_scope t prop.sname cs with
          | .error e => .error (.scope e)
          | .ok () => .ok (cs, ms, v)

/-- The EPB policy names (`_EPB_POLICIES`). -/
def EPB_POLICIES : List String :=
  ["performance", "balance-performance", "normal", "balance-power", "power"]

/-- Embedding of `EPB._validate_value()`: an integer value must lie in
[0, 15] (`Trivial.validate_value_in_range`, a helper not in the sources,
raises outside the range; `valInt` stands for `int(val)` when
`Trivial.is_int(val)` holds); a non-integer is rejected, unless policy
names are accepted and it names an EPB policy. -/
def epb_validate_value (valInt : Option Int) (val : String) (policy_ok : Bool) :
    Except PepcErr Unit :=
  match valInt with
  | some n =>
    if n < 0 ∨ n > 15 then .error (.outOfRange "EPB value") else .ok ()
  | none =>
    if !policy_ok then .error (.invalidValue "EPB value must be an integer")
    else if val ∉ EPB_POLICIES then .error (.invalidValue "EPB policy")
    else .ok ()

end Pepc

namespace Pepc

theorem validate_mnames_list_err (pc : PropsClass) (pname : Option String) (ar : Bool)
    (ms : List String) (h : ∃ m ∈ ms, ∃ e, validate_mname pc m pname ar = .error e) :
    ∃ e, validate_mnames_list pc pname ar ms = .error e := by
  induction ms with
  | nil =>
    obtain ⟨m, hm, -⟩ := h
    exact absurd hm (List.not_mem_nil m)
  | cons m rest ih =>
    cases hv : validate_mname pc m pname ar with
    | error e => exact ⟨e, by simp [validate_mnames_list, hv]⟩
    | ok u =>
      cases u
      obtain ⟨m2, hm2, e2, he2⟩ := h
      rcases List.mem_cons.mp hm2 with rfl | hm2r
      · rw [hv] at he2
        exact Except.noConfusion he2
      · obtain ⟨e3, he3⟩ := ih ⟨m2, hm2r, e2, he2⟩
        exact ⟨e3, by simp [validate_mnames_list, hv, he3]⟩

theorem validate_mname_not_declared (pc : PropsClass) (pname : String) (prop : PropInfo)
    (hsome : alist_get pc.props pname = some prop) (m : String) (hm : m ∉ prop.mnames)
    (ar : Bool) :
    validate_mname pc m (some pname) ar = .error (.unsupportedMech m) := by
  simp [validate_mname, hsome, hm]

theorem validate_mname_readonly (pc : PropsClass) (pname : String) (prop : PropInfo)
    (hsome : alist_get pc.props pname = some prop) (m : String) (hm : m ∈ prop.mnames)
    (hro : mech_writable m = false) :
    validate_mname pc m (some pname) false = .error (.readOnlyMech m) := by
  simp [validate_mname, hsome, hm, hro]

/-- C8: every caller error of a set operation is raised during the
validation phase that precedes mechanism dispatch, so no write is ever
dispatched: an unknown property name, a mechanism that the property does
not declare, a read-only mechanism in a write request, an invalid input
value, and a scope-violating CPU set each make the pipeline return an
error; conversely a dispatched write implies the scope validation passed;
and the EPB value validator rejects every integer outside [0, 15]. -/
theorem C8_validation_precedes_dispatch (pc : PropsClass) (t : Topology)
    (isNum : PVal → Bool) (parseHuman : PVal → Except PepcErr PVal)
    (pname : String) (val : PVal) (cpus : List Nat) :
    ((alist_get pc.props pname = none) →
      ∀ mnames, ∃ e,
        set_prop_cpus_pipe pc t isNum parseHuman pname val cpus mnames = .error e) ∧
    (∀ prop, alist_get pc.props pname = some prop →
      ∀ ms m, m ∈ ms → (m ∉ prop.mnames ∨ mech_writable m = false) →
        ∃ e,
          set_prop_cpus_pipe pc t isNum parseHuman pname val cpus (some ms) = .error e) ∧
    (∀ e mnames, normalize_inprop pc isNum parseHuman pname val = .error e →
      ∃ e2,
        set_prop_cpus_pipe pc t isNum parseHuman pname val cpus mnames = .error e2) ∧
    (∀ mnames cs ms v prop, alist_get pc.props pname = some prop →
      set_prop_cpus_pipe pc t isNum parseHuman pname val cpus mnames = .ok (cs, ms, v) →
      validate_cpus_vs_scope t prop.sname cs = .ok ()) ∧
    (∀ (n : Int) (pol : String) (pok : Bool), (n < 0 ∨ 15 < n) →
      epb_validate_value (some n) pol pok = .error (.outOfRange "EPB value")) := by
  refine ⟨?_, ?_, ?_, ?_, ?_⟩
  · intro hnone mnames
    cases mnames with
    | none =>
      exact ⟨.keyError pname, by simp [set_prop_cpus_pipe, normalize_mnames, hnone]⟩
    | some ms =>
      cases ms with
      | nil =>
        exact ⟨.unknownProperty pname,
          by simp [set_prop_cpus_pipe, normalize_mnames, validate_mnames_list, listDedup,
            normalize_inprop, hnone]⟩
      | cons m rest =>
        refine ⟨.keyError pname, ?_⟩
        have hv : validate_mname pc m (some pname) false = .error (.keyError pname) := by
          simp [validate_mname, hnone]
        simp [set_prop_cpus_pipe, normalize_mnames, validate_mnames_list, hv]
  · intro prop hsome ms m hm hbad
    have herr : ∃ e, validate_mname pc m (some pname) false = .error e := by
      rcases hbad with hnd | hro
      · exact ⟨_, validate_mname_not_declared pc pname prop hsome m hnd false⟩
      · by_cases hmem : m ∈ prop.mnames
        · exact ⟨_, validate_mname_readonly pc pname prop hsome m hmem hro⟩
        · exact ⟨_, validate_mname_not_declared pc pname prop hsome m hmem false⟩
    obtain ⟨e2, he2⟩ := validate_mnames_list_err pc (some pname) false ms ⟨m, hm, herr⟩
    exact ⟨e2, by simp [set_prop_cpus_pipe, normalize_mnames, he2]⟩
  · intro e mnames hbad
    cases hn : normalize_mnames pc mnames (some pname) false with
    | error e0 => exact ⟨e0, by simp [set_prop_cpus_pipe, hn]⟩
    | ok ms => exact ⟨e, by simp [set_prop_cpus_pipe, hn, hbad]⟩
  · intro mnames cs ms v prop hsome hok
    unfold set_prop_cpus_pipe at hok
    cases hn : normalize_mnames pc mnames (some pname) false with
    | error e0 =>
      simp only [hn] at hok
      exact Except.noConfusion hok
    | ok ms0 =>
      simp only [hn] at hok
      cases hi : normalize_inprop pc isNum parseHuman pname val with
      | error e0 =>
        simp only [hi] at hok
        exact Except.noConfusion hok
      | ok v0 =>
        simp only [hi] at hok
        cases hc : normalize_cpus t cpus with
        | error e0 =>
          simp only [hc] at hok
          exact Except.noConfusion hok
        | ok cs0 =>
          simp only [hc, hsome] at hok
          cases hs : validate_cpus_vs_scope t prop.sname cs0 with
          | error e0 =>
            simp only [hs] at hok
            exact Except.noConfusion hok
          | ok u =>
            cases u
            simp only [hs] at hok
            injection hok with h1
            injection h1 with h2 h3
            rw [← h2]
            exact hs
  · intro n pol pok hrange
    simp only [epb_validate_value]
    rw [if_pos]
    omega

end Pepc

namespace Pepc

/-- Witness for C8: an unknown property name makes the set pipeline fail
before dispatch. -/
theorem C8_validation_precedes_dispatch_witness :
    alist_get pc_sample.props "nosuch" = none ∧
    (∃ e, set_prop_cpus_pipe pc_sample topo4 (fun _ => true) (fun v => .ok v) "nosuch"
      (.i 3) [0] none = .error e) :=
  ⟨by decide, (C8_validation_precedes_dispatch pc_sample topo4 (fun _ => true)
     (fun v => .ok v) "nosuch" (.i 3) [0]).1 (by decide) none⟩

end Pepc

namespace Pepc

/-- A reference to a Python object held in an attribute: an identity used
to track `close()` calls, and whether the object has a `close()` method. -/
structure ObjRef where
  id : Nat
  hasClose : Bool
deriving DecidableEq

/-- The value of a `_close*` flag attribute: a boolean, or a value of some
other type (the "BUG: bad value" branch of `ClassHelpers.close()`). -/
inductive FlagVal
  | b (x : Bool)
  | bad
deriving DecidableEq

/-- A class object as `ClassHelpers.close()` sees it: attributes holding
objects — an attribute that is absent (possibly because `__init__()` never
ran that far) or holds `None` is simply not in the list — and the `_close*`
ownership-flag attributes keyed by their derived names. -/
structure CObj where
  attrs : List (String × ObjRef)
  flags : List (String × FlagVal)
deriving DecidableEq

/-- The flag-attribute name derivation of `ClassHelpers.close()`:
`_close` + attr for a private attribute (`attr.startswith("_")`, expressed
on the first character), `_close_` + attr otherwise. -/
def flag_name (attr : String) : String :=
  match attr.data with
  | [] => "_close_" ++ attr
  | c :: _ => if c = Char.ofNat 95 then "_close" ++ attr else "_close_" ++ attr

/-- Setting an attribute to `None`: the attribute leaves the object map. -/
def set_none (o : CObj) (a : String) : CObj :=
  { o with attrs := o.attrs.filter (fun e => e.1 ≠ a) }

/-- One iteration of the `close_attrs` loop of `ClassHelpers.close()`:
skip an absent (or `None`) attribute; on a non-boolean flag value, warn and
set the attribute to `None` without closing; on flag `False`, set to `None`
without closing; otherwise (flag `True`, or no flag attribute) call
`close()` when the object has one — a missing `close()` is only logged —
and set the attribute to `None`.  The returned list records the
(attribute, object id) close events. -/
def close_step (o : CObj) (a : String) : CObj × List (String × Nat) :=
  match alist_get o.attrs a with
  | none => (o, [])
  | some obj =>
    match alist_get o.flags (flag_name a) with
    | some .bad => (set_none o a, [])
    | some (.b false) => (set_none o a, [])
    | some (.b true) =>
      if obj.hasClose then (set_none o a, [(a, obj.id)]) else (set_none o a, [])
    | none =>
      if obj.hasClose then (set_none o a, [(a, obj.id)]) else (set_none o a, [])

/-- Embedding of the `close_attrs` loop of `ClassHelpers.close()`. -/
def close_obj (o : CObj) : List String → CObj × List (String × Nat)
  | [] => (o, [])
  | a :: rest =>
    let r1 := close_step o a
    let r2 := close_obj r1.1 rest
    (r2.1, r1.2 ++ r2.2)

theorem alist_get_filter_ne {α : Type} (l : List (String × α)) (a b : String) (h : b ≠ a) :
    alist_get (l.filter (fun e => e.1 ≠ a)) b = alist_get l b := by
  induction l with
  | nil => rfl
  | cons x rest ih =>
    simp only [alist_get] at ih ⊢
    by_cases hxa : x.1 = a
    · have hxb : ¬ (x.1 = b) := fun he => h (he ▸ hxa)
      rw [List.filter_cons_of_neg (by simp [hxa])]
      rw [List.find?_cons_of_neg _ (by simp [hxb])]
      exact ih
    · rw [List.filter_cons_of_pos (by simp [hxa])]
      by_cases hxb : x.1 = b
      · rw [List.find?_cons_of_pos _ (by simp [hxb]), List.find?_cons_of_pos _ (by simp [hxb])]
      · rw [List.find?_cons_of_neg _ (by simp [hxb]), List.find?_cons_of_neg _ (by simp [hxb])]
        exact ih

theorem lookup_set_none_self (o : CObj) (a : String) :
    alist_get (set_none o a).attrs a = none := by
  simp only [set_none, alist_get]
  rw [List.find?_eq_none.mpr]
  · rfl
  · intro x hx
    have := (List.mem_filter.mp hx).2
    simp only [decide_eq_true_eq] at this ⊢
    exact this

theorem lookup_set_none_other (o : CObj) (a b : String) (h : b ≠ a) :
    alist_get (set_none o a).attrs b = alist_get o.attrs b :=
  alist_get_filter_ne o.attrs a b h

theorem close_step_absent (o : CObj) (a : String) (h : alist_get o.attrs a = none) :
    close_step o a = (o, []) := by
  unfold close_step
  rw [h]

theorem close_step_flags (o : CObj) (a : String) : (close_step o a).1.flags = o.flags := by
  unfold close_step
  cases hb : alist_get o.attrs a with
  | none => rfl
  | some obj =>
    cases hf : alist_get o.flags (flag_name a) with
    | none => by_cases hc : obj.hasClose <;> simp [hc, set_none]
    | some fv =>
      cases fv with
      | bad => rfl
      | b x =>
        cases x with
        | false => rfl
        | true => by_cases hc : obj.hasClose <;> simp [hc, set_none]

theorem close_step_events_key (o : CObj) (b : String) :
    ∀ e ∈ (close_step o b).2, e.1 = b := by
  unfold close_step
  cases hb : alist_get o.attrs b with
  | none => intro e he; exact absurd he (List.not_mem_nil e)
  | some obj =>
    cases hf : alist_get o.flags (flag_name b) with
    | none =>
      by_cases hc : obj.hasClose <;> simp [hc]
    | some fv =>
      cases fv with
      | bad => intro e he; exact absurd he (List.not_mem_nil e)
      | b x =>
        cases x with
        | false => intro e he; exact absurd he (List.not_mem_nil e)
        | true =>
          by_cases hc : obj.hasClose <;> simp [hc]

theorem close_step_preserves_none (o : CObj) (a b : String)
    (h : alist_get o.attrs a = none) : alist_get (close_step o b).1.attrs a = none := by
  unfold close_step
  cases hb : alist_get o.attrs b with
  | none => exact h
  | some obj =>
    have hne : a ≠ b := fun he => by rw [he, hb] at h; exact Option.noConfusion h
    have key : alist_get (set_none o b).attrs a = none := by
      rw [lookup_set_none_other o b a hne]
      exact h
    cases hf : alist_get o.flags (flag_name b) with
    | none => by_cases hc : obj.hasClose <;> simp [hc, key]
    | some fv =>
      cases fv with
      | bad => exact key
      | b x =>
        cases x with
        | false => exact key
        | true => by_cases hc : obj.hasClose <;> simp [hc, key]

theorem close_step_preserves_other (o : CObj) (a b : String) (h : a ≠ b) :
    alist_get (close_step o b).1.attrs a = alist_get o.attrs a := by
  unfold close_step
  cases hb : alist_get o.attrs b with
  | none => rfl
  | some obj =>
    have key : alist_get (set_none o b).attrs a = alist_get o.attrs a :=
      lookup_set_none_other o b a h
    cases hf : alist_get o.flags (flag_name b) with
    | none => by_cases hc : obj.hasClose <;> simp [hc, key]
    | some fv =>
      cases fv with
      | bad => exact key
      | b x =>
        cases x with
        | false => exact key
        | true => by_cases hc : obj.hasClose <;> simp [hc, key]

theorem close_obj_preserves_none (o : CObj) (attrs : List String) (a : String)
    (h : alist_get o.attrs a = none) :
    alist_get (close_obj o attrs).1.attrs a = none := by
  induction attrs generalizing o with
  | nil => exact h
  | cons b rest ih =>
    unfold close_obj
    exact ih _ (close_step_preserves_none o a b h)

theorem close_obj_flags (o : CObj) (attrs : List String) :
    (close_obj o attrs).1.flags = o.flags := by
  induction attrs generalizing o with
  | nil => rfl
  | cons b rest ih =>
    unfold close_obj
    rw [ih]
    exact close_step_flags o b

theorem close_obj_clears (o : CObj) (attrs : List String) :
    ∀ a ∈ attrs, alist_get (close_obj o attrs).1.attrs a = none := by
  induction attrs generalizing o with
  | nil => intro a ha; exact absurd ha (List.not_mem_nil a)
  | cons b rest ih =>
    intro a ha
    unfold close_obj
    rcases List.mem_cons.mp ha with rfl | har
    · have h1 : alist_get (close_step o a).1.attrs a = none := by
        unfold close_step
        cases hb : alist_get o.attrs a with
        | none => exact hb
        | some obj =>
          cases hf : alist_get o.flags (flag_name a) with
          | none => by_cases hc : obj.hasClose <;> simp [hc, lookup_set_none_self]
          | some fv =>
            cases fv with
            | bad => exact lookup_set_none_self o a
            | b x =>
              cases x with
              | false => exact lookup_set_none_self o a
              | true => by_cases hc : obj.hasClose <;> simp [hc, lookup_set_none_self]
      exact close_obj_preserves_none _ rest a h1
    · exact ih _ a har

theorem close_obj_all_none (o : CObj) (attrs : List String)
    (h : ∀ a ∈ attrs, alist_get o.attrs a = none) :
    close_obj o attrs = (o, []) := by
  induction attrs with
  | nil => rfl
  | cons b rest ih =>
    unfold close_obj
    rw [close_step_absent o b (h b (List.mem_cons_self b rest))]
    simp [ih (fun x hx => h x (List.mem_cons_of_mem b hx))]

theorem close_obj_none_events (o : CObj) (attrs : List String) (a : String)
    (h : alist_get o.attrs a = none) :
    (close_obj o attrs).2.filter (fun e => e.1 = a) = [] := by
  induction attrs generalizing o with
  | nil => rfl
  | cons b rest ih =>
    unfold close_obj
    rw [List.filter_append, ih _ (close_step_preserves_none o a b h)]
    rw [List.append_nil]
    rw [List.filter_eq_nil_iff.mpr]
    intro x hx
    have hxb := close_step_events_key o b x hx
    by_cases hab : b = a
    · subst hab
      rw [close_step_absent o b h] at hx
      exact absurd hx (List.not_mem_nil x)
    · simp only [decide_eq_true_eq]
      rw [hxb]
      exact hab

theorem close_obj_flag_false (o : CObj) (attrs : List String) (a : String)
    (hf : alist_get o.flags (flag_name a) = some (.b false)) :
    (close_obj o attrs).2.filter (fun e => e.1 = a) = [] := by
  induction attrs generalizing o with
  | nil => rfl
  | cons b rest ih =>
    unfold close_obj
    rw [List.filter_append]
    rw [ih (close_step o b).1 (by rw [close_step_flags]; exact hf)]
    rw [List.append_nil]
    by_cases hab : b = a
    · subst hab
      have hnil : (close_step o b).2 = [] := by
        unfold close_step
        cases hb : alist_get o.attrs b with
        | none => rfl
        | some obj => rw [hf]
      rw [hnil]
      rfl
    · rw [List.filter_eq_nil_iff.mpr]
      intro x hx
      have hxb := close_step_events_key o b x hx
      simp only [decide_eq_true_eq]
      rw [hxb]
      exact hab

theorem close_obj_events_once (o : CObj) (attrs : List String) (a : String) (obj : ObjRef)
    (hl : alist_get o.attrs a = some obj) (hc : obj.hasClose = true)
    (hf : alist_get o.flags (flag_name a) = some (.b true) ∨
          alist_get o.flags (flag_name a) = none)
    (hmem : a ∈ attrs) :
    (close_obj o attrs).2.filter (fun e => e.1 = a) = [(a, obj.id)] := by
  induction attrs generalizing o with
  | nil => exact absurd hmem (List.not_mem_nil a)
  | cons b rest ih =>
    unfold close_obj
    rw [List.filter_append]
    by_cases hab : b = a
    · subst hab
      have hstep : close_step o b = (set_none o b, [(b, obj.id)]) := by
        unfold close_step
        rw [hl]
        rcases hf with hft | hft <;> rw [hft] <;> simp [hc]
      rw [hstep]
      rw [close_obj_none_events _ rest b (lookup_set_none_self o b)]
      simp
    · have hfilter1 : (close_step o b).2.filter (fun e => e.1 = a) = [] := by
        rw [List.filter_eq_nil_iff.mpr]
        intro x hx
        have hxb := close_step_events_key o b x hx
        simp only [decide_eq_true_eq]
        rw [hxb]
        exact hab
      rw [hfilter1, List.nil_append]
      apply ih
      · rw [close_step_preserves_other o a b (fun he => hab he.symm)]
        exact hl
      · rcases hf with hft | hft
        · exact Or.inl (by rw [close_step_flags]; exact hft)
        · exact Or.inr (by rw [close_step_flags]; exact hft)
      · rcases List.mem_cons.mp hmem with rfl | har
        · exact absurd rfl hab
        · exact har

end Pepc

namespace Pepc

/-- C9: teardown via `ClassHelpers.close()` is idempotent and ownership
aware: a second close performs no further releases and leaves the object
unchanged (all listed attributes are already `None`); an attribute whose
`_close*` flag is `False` (a caller-supplied accessor) is never closed; an
attribute holding a self-constructed object (flag `True` or no flag) with a
`close()` method is closed exactly once across both calls; and an absent
attribute — as after a partially completed construction — is skipped
without any effect. -/
theorem C9_teardown_idempotent (o : CObj) (attrs : List String) :
    (close_obj (close_obj o attrs).1 attrs = ((close_obj o attrs).1, [])) ∧
    (∀ a, alist_get o.flags (flag_name a) = some (.b false) →
      (close_obj o attrs).2.filter (fun e => e.1 = a) = []) ∧
    (∀ a obj, alist_get o.attrs a = some obj → obj.hasClose = true →
      (alist_get o.flags (flag_name a) = some (.b true) ∨
       alist_get o.flags (flag_name a) = none) →
      a ∈ attrs →
      ((close_obj o attrs).2 ++ (close_obj (close_obj o attrs).1 attrs).2).filter
        (fun e => e.1 = a) = [(a, obj.id)]) ∧
    (∀ a, alist_get o.attrs a = none → close_step o a = (o, [])) := by
  have hsecond : close_obj (close_obj o attrs).1 attrs = ((close_obj o attrs).1, []) :=
    close_obj_all_none _ _ (close_obj_clears o attrs)
  refine ⟨hsecond, ?_, ?_, ?_⟩
  · intro a hf
    exact close_obj_flag_false o attrs a hf
  · intro a obj hl hc hf hmem
    rw [List.filter_append, hsecond]
    rw [close_obj_events_once o attrs a obj hl hc hf hmem]
    rfl
  · intro a h
    exact close_step_absent o a h

/-- A concrete object: a self-constructed `_msr` accessor (id 1), a
caller-supplied `_pman` accessor (id 2, ownership flag `False`). -/
def obj0 : CObj where
  attrs := [("_msr", { id := 1, hasClose := true }), ("_pman", { id := 2, hasClose := true })]
  flags := [("_close_pman", .b false)]

/-- Witness for C9: on `obj0`, two closes over `[_msr, _pman]` close the
self-constructed `_msr` exactly once and never close the caller-supplied
`_pman`. -/
theorem C9_teardown_idempotent_witness :
    alist_get obj0.attrs "_msr" = some { id := 1, hasClose := true } ∧
    (alist_get obj0.flags (flag_name "_pman") = some (.b false) ∧
      (close_obj obj0 ["_msr", "_pman"]).2.filter (fun e => e.1 = "_pman") = []) ∧
    ((close_obj obj0 ["_msr", "_pman"]).2 ++
      (close_obj (close_obj obj0 ["_msr", "_pman"]).1 ["_msr", "_pman"]).2).filter
      (fun e => e.1 = "_msr") = [("_msr", 1)] :=
  ⟨by decide,
   ⟨by decide, (C9_teardown_idempotent obj0 ["_msr", "_pman"]).2.1 "_pman" (by decide)⟩,
   (C9_teardown_idempotent obj0 ["_msr", "_pman"]).2.2.1 "_msr" { id := 1, hasClose := true }
     (by decide) rfl (Or.inr (by decide)) (by decide)⟩

end Pepc

namespace Pepc

theorem mem_listDedup {α : Type} [DecidableEq α] (a : α) :
    ∀ l : List α, a ∈ listDedup l ↔ a ∈ l := by
  intro l
  induction l with
  | nil => simp [listDedup]
  | cons x xs ih =>
    simp only [listDedup, List.mem_cons]
    constructor
    · rintro (rfl | hmem)
      · exact Or.inl rfl
      · exact Or.inr (ih.mp (List.mem_filter.mp hmem).1)
    · rintro (rfl | hmem)
      · exact Or.inl rfl
      · by_cases hax : a = x
        · exact Or.inl hax
        · exact Or.inr (List.mem_filter.mpr ⟨ih.mpr hmem, by simp [hax]⟩)

theorem listDedup_nodup {α : Type} [DecidableEq α] : ∀ l : List α, (listDedup l).Nodup := by
  intro l
  induction l with
  | nil => simp [listDedup]
  | cons x xs ih =>
    simp only [listDedup]
    refine List.Nodup.cons ?_ (List.Nodup.filter _ ih)
    intro hmem
    have := (List.mem_filter.mp hmem).2
    simp at this

theorem listDedup_eq_self {α : Type} [DecidableEq α] :
    ∀ l : List α, l.Nodup → listDedup l = l := by
  intro l
  induction l with
  | nil => intro _; rfl
  | cons x xs ih =>
    intro h
    simp only [listDedup]
    rw [ih (List.Nodup.of_cons h)]
    rw [List.filter_eq_self.mpr]
    intro y hy
    have hx : x ∉ xs := (List.nodup_cons.mp h).1
    simp only [decide_eq_true_eq]
    exact fun he => hx (he ▸ hy)

theorem listDedup_idem {α : Type} [DecidableEq α] (l : List α) :
    listDedup (listDedup l) = listDedup l :=
  listDedup_eq_self _ (listDedup_nodup l)

theorem validate_list_filter_ok (pc : PropsClass) (pname : Option String) (ar : Bool)
    (m : String) (hm : validate_mname pc m pname ar = .ok ()) :
    ∀ l, validate_mnames_list pc pname ar (l.filter (fun y => y ≠ m)) =
      validate_mnames_list pc pname ar l := by
  intro l
  induction l with
  | nil => rfl
  | cons x t ih =>
    by_cases hxm : x = m
    · subst hxm
      rw [List.filter_cons_of_neg (by simp)]
      rw [ih]
      simp [validate_mnames_list, hm]
    · rw [List.filter_cons_of_pos (by simp [hxm])]
      cases hv : validate_mname pc x pname ar with
      | error e => simp [validate_mnames_list, hv]
      | ok u =>
        cases u
        simp only [validate_mnames_list, hv]
        simpa using ih

theorem validate_list_dedup (pc : PropsClass) (pname : Option String) (ar : Bool) :
    ∀ ms, validate_mnames_list pc pname ar (listDedup ms) =
      validate_mnames_list pc pname ar ms := by
  intro ms
  induction ms with
  | nil => rfl
  | cons m rest ih =>
    show validate_mnames_list pc pname ar (m :: (listDedup rest).filter (fun y => y ≠ m)) = _
    cases hv : validate_mname pc m pname ar with
    | error e => simp [validate_mnames_list, hv]
    | ok u =>
      cases u
      simp only [validate_mnames_list, hv]
      rw [validate_list_filter_ok pc pname ar m hv (listDedup rest), ih]

theorem normalize_mnames_dedup (pc : PropsClass) (pname : Option String) (ar : Bool)
    (ms : List String) :
    normalize_mnames pc (some ms) pname ar =
      normalize_mnames pc (some (listDedup ms)) pname ar := by
  simp only [normalize_mnames]
  rw [validate_list_dedup]
  cases hv : validate_mnames_list pc pname ar ms with
  | error e => rfl
  | ok u =>
    cases u
    rw [listDedup_idem]

/-- The per-CPU read pipeline of `get_prop_cpus()` restricted to one CPU
(as `get_cpu_prop()` uses it): property validation, mechanism
normalization, CPU normalization, then the property value dictionary built
by the mechanism loop. -/
def get_cpu_prop_checked (pc : PropsClass) (rd : String → Nat → String → Option PVal)
    (t : Topology) (pname : String) (cpu : Nat) (mnames : Option (List String)) :
    Except PepcErr PvInfo :=
  match alist_get pc.props pname with
  | none => .error (.unknownProperty pname)
  | some prop =>
    match normalize_mnames pc mnames (some pname) true with
    | .error e => .error e
    | .ok ms =>
      match normalize_cpus t [cpu] with
      | .error e => .error e
      | .ok _ => .ok (get_cpu_prop_pvinfo prop rd pname cpu (some ms))

/-- C10: a caller-supplied mechanism list is validated and then
deduplicated preserving first occurrences, so normalization — and with it
the whole get pipeline — behaves identically on a list with duplicates and
on its deduplication (for reads and for writes); with no list supplied the
property's declared mechanism order is used. -/
theorem C10_mnames_dedup (pc : PropsClass) (t : Topology)
    (rd : String → Nat → String → Option PVal) (pname : String) (cpu : Nat)
    (ms : List String) :
    (normalize_mnames pc (some ms) (some pname) true =
      normalize_mnames pc (some (listDedup ms)) (some pname) true) ∧
    (normalize_mnames pc (some ms) (some pname) false =
      normalize_mnames pc (some (listDedup ms)) (some pname) false) ∧
    (get_cpu_prop_checked pc rd t pname cpu (some ms) =
      get_cpu_prop_checked pc rd t pname cpu (some (listDedup ms))) ∧
    (∀ prop, alist_get pc.props pname = some prop →
      normalize_mnames pc none (some pname) true = .ok prop.mnames) := by
  refine ⟨normalize_mnames_dedup pc (some pname) true ms,
    normalize_mnames_dedup pc (some pname) false ms, ?_, ?_⟩
  · simp only [get_cpu_prop_checked]
    rw [normalize_mnames_dedup pc (some pname) true ms]
  · intro prop hsome
    simp [normalize_mnames, hsome]

/-- Witness for C10: the sample property's declared order is used when no
mechanism list is supplied. -/
theorem C10_mnames_dedup_witness :
    alist_get pc_sample.props "sample" = some prop_sample ∧
    normalize_mnames pc_sample none (some "sample") true = .ok prop_sample.mnames :=
  ⟨by decide, (C10_mnames_dedup pc_sample topo4 (fun _ _ _ => none) "sample" 0
     ["sysfs", "sysfs"]).2.2.2 prop_sample (by decide)⟩

end Pepc
